import Mathlib

/-!
Shallow embedding of the financeager entry/period storage engine and its
transport/offline-queue layer, together with proofs of the specification
claims.  Modules that ship in `src/financeager` (`cli.py`, `config.py`) are
translated directly from the source; modules of this repository that are not
under `src/` (`offline.py`, `communication.py`, `server.py`, `period.py`,
`entries.py`) are modelled from the specification, as marked in the
respective doc comments.
-/

namespace Financeager

/-- A parameter value inside a request dict, as produced by the command line
parser (strings, `None`, the raw list of `"key=value"` filter strings, the
parsed filter dict, numbers). -/
inductive Val where
  | vstr (s : String)
  | vnone
  | vlist (l : List String)
  | vdict (d : List (String × Option String))
  | vint (i : Int)
  | vbool (b : Bool)
deriving DecidableEq, Repr

/-- A Python dict mapping parameter names to values, in insertion order. -/
abbrev Dict := List (String × Val)

/-- One record of the offline queue: a failed mutating request. -/
structure OfflineRecord where
  command : String
  params : Dict
deriving DecidableEq, Repr

/-- Modelled from the spec: `financeager/offline.py` is absent from `src/`.
`recover(client)` replays queued records strictly from the front, each via
`client.run` (modelled as a success predicate on records).  On the first
record whose replay fails it stops immediately, raises
`OfflineRecoveryError` (the `Except.error` branch) and leaves the failed
record and everything after it queued; if every record replays successfully
the queue is emptied and `true` is returned; an empty queue yields `false`
without error.  The returned list is the queue contents after the call. -/
def recover (clientRun : OfflineRecord → Bool) :
    List OfflineRecord → Except Unit Bool × List OfflineRecord
  | [] => (Except.ok false, [])
  | r :: rest =>
    if clientRun r then
      match recover clientRun rest with
      | (Except.ok _, q) => (Except.ok true, q)
      | (Except.error e, q) => (Except.error e, q)
    else
      (Except.error (), r :: rest)

theorem recover_nil (f : OfflineRecord → Bool) :
    recover f [] = (Except.ok false, []) := rfl

theorem recover_cons_true (f : OfflineRecord → Bool) (r : OfflineRecord)
    (rest : List OfflineRecord) (hr : f r = true) :
    recover f (r :: rest) =
      match recover f rest with
      | (Except.ok _, q) => (Except.ok true, q)
      | (Except.error e, q) => (Except.error e, q) := by
  simp only [recover]
  rw [if_pos hr]

theorem recover_cons_false (f : OfflineRecord → Bool) (r : OfflineRecord)
    (rest : List OfflineRecord) (hr : f r = false) :
    recover f (r :: rest) = (Except.error (), r :: rest) := by
  simp only [recover]
  rw [if_neg (by simp [hr])]

theorem recover_all_ok (f : OfflineRecord → Bool) :
    ∀ q : List OfflineRecord, q ≠ [] → (∀ x ∈ q, f x = true) →
      recover f q = (Except.ok true, [])
  | [], h, _ => absurd rfl h
  | r :: rest, _, h => by
    have hr : f r = true := h r (List.mem_cons_self r rest)
    cases rest with
    | nil => rw [recover_cons_true f r [] hr, recover_nil f]
    | cons r' rest' =>
      have ih := recover_all_ok f (r' :: rest') (by simp)
        (fun x hx => h x (List.mem_cons_of_mem r hx))
      rw [recover_cons_true f r (r' :: rest') hr, ih]

theorem recover_first_failure (f : OfflineRecord → Bool) (r : OfflineRecord)
    (q₂ : List OfflineRecord) :
    ∀ q₁ : List OfflineRecord, (∀ x ∈ q₁, f x = true) → f r = false →
      recover f (q₁ ++ r :: q₂) = (Except.error (), r :: q₂)
  | [], _, hr => by
    rw [List.nil_append, recover_cons_false f r q₂ hr]
  | x :: q₁', h, hr => by
    have hx : f x = true := h x (List.mem_cons_self x q₁')
    have ih := recover_first_failure f r q₂ q₁'
      (fun y hy => h y (List.mem_cons_of_mem x hy)) hr
    rw [List.cons_append, recover_cons_true f x _ hx, ih]

/-- Claim C1: for every offline queue state, `recover(client)` returns
`false` without error on an empty queue; empties the queue and returns `true`
when every queued record replays successfully; and on the first record whose
replay fails it stops immediately, fails with `OfflineRecoveryError`, and the
failed record together with every record after it remains queued in the
original relative order. -/
theorem C1_offline_recover (f : OfflineRecord → Bool)
    (q q₁ q₂ : List OfflineRecord) (r : OfflineRecord) :
    recover f [] = (Except.ok false, []) ∧
    (q ≠ [] → (∀ x ∈ q, f x = true) → recover f q = (Except.ok true, [])) ∧
    ((∀ x ∈ q₁, f x = true) → f r = false →
      recover f (q₁ ++ r :: q₂) = (Except.error (), r :: q₂)) :=
  ⟨recover_nil f, recover_all_ok f q,
    fun h1 h2 => recover_first_failure f r q₂ q₁ h1 h2⟩

/-- Concrete witness for C1: a queue of three records whose 2nd replay fails
leaves exactly records 2 and 3 queued, in that order, and a fully
successful two-record queue is drained. -/
theorem C1_offline_recover_witness :
    recover (fun r => r.command == "update")
        [⟨"update", []⟩, ⟨"add", []⟩, ⟨"remove", []⟩] =
      (Except.error (), [⟨"add", []⟩, ⟨"remove", []⟩]) ∧
    recover (fun r => r.command == "update")
        [⟨"update", []⟩, ⟨"update", []⟩] = (Except.ok true, []) := by
  constructor
  · have h := (C1_offline_recover (fun r => r.command == "update")
      [] [⟨"update", []⟩] [⟨"remove", []⟩] ⟨"add", []⟩).2.2
      (by decide) (by decide)
    simpa using h
  · have h := (C1_offline_recover (fun r => r.command == "update")
      [⟨"update", []⟩, ⟨"update", []⟩] [] [] ⟨"add", []⟩).2.1
      (by decide) (by decide)
    simpa using h

/-- Outcome classification of one transport-level `run` call. -/
inductive RunOutcome where
  | success
  | communicationError
  | unexpectedError
  | validationError
  | notFoundError
  | invalidRequest
deriving DecidableEq, Repr

/-- The mutating commands; their operational failures are worth queuing. -/
def MUTATING_COMMANDS : List String := ["add", "update", "remove", "copy"]

/-- An operational/communication fault: server unreachable or an unexpected
exception. -/
def RunOutcome.isOperationalFault : RunOutcome → Bool
  | .communicationError => true
  | .unexpectedError => true
  | _ => false

/-- Modelled from the spec: `financeager/communication.py` is absent from
`src/`.  `Client.safely_run(command, **params)` returns
`(success, store_offline)`: `success` exactly when a response without error
was obtained; `store_offline` exactly when the failure is an
operational/communication fault and the command is mutating. -/
def safely_run (command : String) (outcome : RunOutcome) : Bool × Bool :=
  (decide (outcome = RunOutcome.success),
    outcome.isOperationalFault && decide (command ∈ MUTATING_COMMANDS))

/-- Claim C4: `safely_run` reports `store_offline = true` exactly when the
failure is an operational/communication fault (server unreachable,
unexpected exception) and the command is mutating; `store_offline` is
`false` for every read-only command and for every predictable validation
failure, regardless of command. -/
theorem C4_store_offline_classification (command : String) (outcome : RunOutcome) :
    ((safely_run command outcome).2 = true ↔
      (outcome = RunOutcome.communicationError ∨ outcome = RunOutcome.unexpectedError) ∧
        command ∈ MUTATING_COMMANDS) ∧
    (command = "get" ∨ command = "list" ∨ command = "periods" →
      (safely_run command outcome).2 = false) ∧
    (outcome = RunOutcome.validationError ∨ outcome = RunOutcome.notFoundError ∨
        outcome = RunOutcome.invalidRequest →
      (safely_run command outcome).2 = false) ∧
    ((safely_run command outcome).1 = true ↔ outcome = RunOutcome.success) := by
  refine ⟨?_, ?_, ?_, ?_⟩
  · cases outcome <;>
      simp [safely_run, RunOutcome.isOperationalFault]
  · rintro (rfl | rfl | rfl) <;> cases outcome <;>
      simp [safely_run, RunOutcome.isOperationalFault, MUTATING_COMMANDS]
  · rintro (rfl | rfl | rfl) <;>
      simp [safely_run, RunOutcome.isOperationalFault]
  · simp [safely_run]

/-- Concrete witness for C4: a communication fault on `add` is queued, a
validation failure on `add` and a communication fault on the read-only
`list` are not. -/
theorem C4_store_offline_classification_witness :
    (safely_run "add" RunOutcome.communicationError).2 = true ∧
    (safely_run "add" RunOutcome.validationError).2 = false ∧
    (safely_run "list" RunOutcome.communicationError).2 = false := by
  refine ⟨?_, ?_, ?_⟩
  · exact (C4_store_offline_classification "add"
      RunOutcome.communicationError).1.mpr ⟨Or.inl rfl, by decide⟩
  · exact (C4_store_offline_classification "add"
      RunOutcome.validationError).2.2.1 (Or.inl rfl)
  · exact (C4_store_offline_classification "list"
      RunOutcome.communicationError).2.1 (Or.inr (Or.inl rfl))

/-! ### Table: ID-indexed collection of entries, ID allocation (claim C2) -/

/-- Modelled from the spec: the `Table` class (`financeager/period.py` is
absent from `src/`).  A Table stores a mapping from `eid` to entry in
insertion order, and keeps the set of eids ever assigned during its
lifetime: `add` assigns the smallest positive integer greater than every
eid assigned so far (monotonic increment per table, not reused after
removal within the same run). -/
structure Table (α : Type) where
  entries : List (Nat × α)
  assigned : List Nat
deriving DecidableEq, Repr

namespace Table

variable {α : Type}

def empty : Table α := ⟨[], []⟩

/-- The largest eid assigned so far (0 when none was assigned yet). -/
def maxAssigned (t : Table α) : Nat := t.assigned.foldr max 0

/-- The eid the next `add` will assign. -/
def nextEid (t : Table α) : Nat := t.maxAssigned + 1

/-- `add(entry) -> eid`: assign the next unused positive integer and store
the entry. -/
def add (t : Table α) (e : α) : Nat × Table α :=
  let eid := t.nextEid
  (eid, ⟨t.entries ++ [(eid, e)], t.assigned ++ [eid]⟩)

/-- `get(eid)`: the stored entry, or `none` (`NotFoundError`). -/
def get (t : Table α) (eid : Nat) : Option α :=
  (t.entries.find? (fun p => p.1 == eid)).map Prod.snd

/-- `remove(eid)`: drop and return the entry; `none` means `NotFoundError`.
Removal frees the entry slot but does not free the eid for reuse. -/
def remove (t : Table α) (eid : Nat) : Option (α × Table α) :=
  match t.get eid with
  | none => none
  | some e => some (e, ⟨t.entries.filter (fun p => p.1 != eid), t.assigned⟩)

end Table

/-- One operation of a Table lifetime. -/
inductive TableOp (α : Type) where
  | add (e : α)
  | remove (eid : Nat)
deriving DecidableEq, Repr

/-- Run a sequence of operations, returning the final table and the eids
returned by the `add` calls, in order.  A failing `remove` leaves the table
unchanged. -/
def applyOps {α : Type} : Table α → List (TableOp α) → Table α × List Nat
  | t, [] => (t, [])
  | t, TableOp.add e :: ops =>
    let r := t.add e
    let rest := applyOps r.2 ops
    (rest.1, r.1 :: rest.2)
  | t, TableOp.remove d :: ops =>
    match t.remove d with
    | some r => applyOps r.2 ops
    | none => applyOps t ops

/-- Number of `add` operations in a sequence. -/
def numAdds {α : Type} : List (TableOp α) → Nat
  | [] => 0
  | TableOp.add _ :: ops => numAdds ops + 1
  | TableOp.remove _ :: ops => numAdds ops

theorem foldr_max_of_le (m : Nat) :
    ∀ l : List Nat, (∀ x ∈ l, x ≤ m) → l.foldr max m = m
  | [], _ => rfl
  | x :: l, h => by
    have hx : x ≤ m := h x (List.mem_cons_self x l)
    have ih := foldr_max_of_le m l (fun y hy => h y (List.mem_cons_of_mem x hy))
    simp [List.foldr_cons, ih, Nat.max_eq_right hx]

theorem foldr_max_range' : ∀ k : Nat, (List.range' 1 k).foldr max 0 = k
  | 0 => rfl
  | k + 1 => by
    rw [List.range'_1_concat, List.foldr_append]
    simp only [List.foldr_cons, List.foldr_nil, Nat.max_zero]
    refine foldr_max_of_le (1 + k) (List.range' 1 k) (fun x hx => ?_) |>.trans ?_
    · have := (List.mem_range'_1.mp hx).2
      omega
    · omega

theorem maxAssigned_range' {α : Type} (t : Table α) (k : Nat)
    (h : t.assigned = List.range' 1 k) : t.maxAssigned = k := by
  rw [Table.maxAssigned, h, foldr_max_range']

/-- Invariant preservation: starting from a table whose assigned-eid history
is `1..k`, a sequence of operations yields history `1..(k + numAdds ops)`,
the adds return exactly `k+1, k+2, ...` in order, and every entry key is an
assigned eid. -/
theorem applyOps_spec {α : Type} :
    ∀ (ops : List (TableOp α)) (t : Table α) (k : Nat),
      t.assigned = List.range' 1 k →
      (∀ p ∈ t.entries, p.1 ∈ t.assigned) →
      (applyOps t ops).1.assigned = List.range' 1 (k + numAdds ops) ∧
      (applyOps t ops).2 = List.range' (k + 1) (numAdds ops) ∧
      (∀ p ∈ (applyOps t ops).1.entries, p.1 ∈ (applyOps t ops).1.assigned)
  | [], t, k, ha, he =>
    ⟨by simp only [applyOps, numAdds, Nat.add_zero]; exact ha,
     by simp [applyOps, numAdds],
     by simpa [applyOps] using he⟩
  | TableOp.add e :: ops, t, k, ha, he => by
    have hmax : t.maxAssigned = k := maxAssigned_range' t k ha
    have heid : (t.add e).1 = k + 1 := by
      simp [Table.add, Table.nextEid, hmax]
    have ha' : (t.add e).2.assigned = List.range' 1 (k + 1) := by
      simp only [Table.add, Table.nextEid, hmax, ha]
      rw [List.range'_1_concat]
      simp [Nat.add_comm]
    have he' : ∀ p ∈ (t.add e).2.entries, p.1 ∈ (t.add e).2.assigned := by
      intro p hp
      simp only [Table.add, List.mem_append, List.mem_singleton] at hp ⊢
      rcases hp with hp | hp
      · exact Or.inl (he p hp)
      · subst hp; right; simp [Table.nextEid, hmax]
    have ih := applyOps_spec ops (t.add e).2 (k + 1) ha' he'
    refine ⟨?_, ?_, ?_⟩
    · show (applyOps (t.add e).2 ops).1.assigned = _
      rw [ih.1]
      have harith : k + 1 + numAdds ops = k + numAdds (TableOp.add e :: ops) := by
        simp only [numAdds]; omega
      rw [harith]
    · show (t.add e).1 :: (applyOps (t.add e).2 ops).2 = _
      rw [ih.2.1, heid]
      simp only [numAdds]
      rw [List.range'_succ]
    · show ∀ p ∈ (applyOps (t.add e).2 ops).1.entries, _
      exact ih.2.2
  | TableOp.remove d :: ops, t, k, ha, he => by
    cases hr : t.remove d with
    | none =>
      have ih := applyOps_spec ops t k ha he
      simp only [applyOps, hr]
      simpa [numAdds] using ih
    | some r =>
      have ha' : r.2.assigned = List.range' 1 k := by
        rcases r with ⟨x, t'⟩
        simp only [Table.remove] at hr
        cases hg : t.get d with
        | none => rw [hg] at hr; exact absurd hr (by simp)
        | some y =>
          rw [hg] at hr
          simp only [Option.some.injEq, Prod.mk.injEq] at hr
          rw [← hr.2, ha]
      have he' : ∀ p ∈ r.2.entries, p.1 ∈ r.2.assigned := by
        rcases r with ⟨x, t'⟩
        simp only [Table.remove] at hr
        cases hg : t.get d with
        | none => rw [hg] at hr; exact absurd hr (by simp)
        | some y =>
          rw [hg] at hr
          simp only [Option.some.injEq, Prod.mk.injEq] at hr
          intro p hp
          rw [← hr.2] at hp ⊢
          simp only [List.mem_filter] at hp
          exact he p hp.1
      have ih := applyOps_spec ops r.2 k ha' he'
      simp only [applyOps, hr]
      simpa [numAdds] using ih

/-- Claim C2: within one table lifetime, every `add` returns a positive
eid equal to the smallest integer greater than all eids assigned so far,
so the returned eids are unique and strictly increasing per table, and an
eid freed by `remove` is never reassigned by a later `add`. -/
theorem C2_eid_allocation {α : Type} (ops pre post : List (TableOp α))
    (d : Nat) (e : α) (m : Nat) :
    (∀ i ∈ (applyOps (Table.empty) ops).2, 0 < i) ∧
    List.Chain' (· < ·) (applyOps (Table.empty) ops).2 ∧
    ((applyOps (Table.empty) ops).2).Nodup ∧
    (((applyOps (Table.empty) pre).1.add e).1 =
        (applyOps (Table.empty) pre).1.maxAssigned + 1 ∧
      (∀ a ∈ (applyOps (Table.empty) pre).1.assigned,
        a < ((applyOps (Table.empty) pre).1.add e).1) ∧
      (0 < m → (∀ a ∈ (applyOps (Table.empty) pre).1.assigned, a < m) →
        ((applyOps (Table.empty) pre).1.add e).1 ≤ m)) ∧
    (ops = pre ++ TableOp.remove d :: post →
      d ∈ (applyOps (Table.empty) pre).1.assigned →
      d ∉ (applyOps (applyOps (Table.empty) pre).1
            (TableOp.remove d :: post)).2) := by
  have hbase : (Table.empty : Table α).assigned = List.range' 1 0 := rfl
  have hent : ∀ p ∈ (Table.empty : Table α).entries, p.1 ∈ (Table.empty : Table α).assigned := by
    intro p hp; simp [Table.empty] at hp
  have hops := applyOps_spec ops Table.empty 0 hbase hent
  have hpre := applyOps_spec pre Table.empty 0 hbase hent
  refine ⟨?_, ?_, ?_, ⟨rfl, ?_, ?_⟩, ?_⟩
  · intro i hi
    rw [hops.2.1] at hi
    have := (List.mem_range'_1.mp hi).1
    omega
  · rw [hops.2.1]
    exact (List.pairwise_lt_range' (0 + 1) (numAdds ops)).chain'
  · rw [hops.2.1]
    exact List.nodup_range' (0 + 1) (numAdds ops)
  · intro a hha
    rw [hpre.1] at hha
    have hmax := maxAssigned_range' _ _ hpre.1
    have := (List.mem_range'_1.mp hha).2
    simp only [Table.add, Table.nextEid, hmax]
    omega
  · intro hm hall
    have hmax := maxAssigned_range' _ _ hpre.1
    simp only [Table.add, Table.nextEid, hmax]
    rcases Nat.eq_zero_or_pos (numAdds pre) with h0 | hpos
    · omega
    · have hk : numAdds pre ∈ (applyOps (Table.empty : Table α) pre).1.assigned := by
        rw [hpre.1]
        simp only [Nat.zero_add, List.mem_range'_1]
        omega
      have := hall _ hk
      omega
  · intro _ hd
    rw [hpre.1] at hd
    have hd' := (List.mem_range'_1.mp hd).2
    have hmid := applyOps_spec (TableOp.remove d :: post)
      (applyOps (Table.empty : Table α) pre).1 (numAdds pre)
      (by simpa using hpre.1) hpre.2.2
    rw [hmid.2.1]
    intro hmem
    have := (List.mem_range'_1.mp hmem).1
    omega

/-- Concrete witness for C2: the lifetime `add, add, remove 2, add` returns
eids `1, 2, 3` — the freed eid 2 is not reassigned. -/
theorem C2_eid_allocation_witness :
    (applyOps (Table.empty)
        [TableOp.add "a", TableOp.add "b", TableOp.remove 2, TableOp.add "c"]).2 =
      [1, 2, 3] ∧
    2 ∉ (applyOps (applyOps (Table.empty)
          [TableOp.add "a", TableOp.add "b"]).1
          [TableOp.remove 2, TableOp.add "c"]).2 := by
  constructor
  · decide
  · exact (C2_eid_allocation
      [TableOp.add "a", TableOp.add "b", TableOp.remove 2, TableOp.add "c"]
      [TableOp.add "a", TableOp.add "b"] [TableOp.add "c"] 2 "x" 1).2.2.2.2
      rfl (by decide)

/-! ### Recurring entry templates and occurrence materialization (claim C3) -/

def isLeapYear (y : Nat) : Bool :=
  y % 4 == 0 && (y % 100 != 0 || y % 400 == 0)

def daysInMonth (y m : Nat) : Nat :=
  if m = 2 then (if isLeapYear y then 29 else 28)
  else if m = 4 ∨ m = 6 ∨ m = 9 ∨ m = 11 then 30
  else 31

theorem daysInMonth_bounds (y m : Nat) :
    28 ≤ daysInMonth y m ∧ daysInMonth y m ≤ 31 := by
  unfold daysInMonth
  split
  · split <;> omega
  · split <;> omega

/-- A calendar date. -/
structure Date where
  year : Nat
  month : Nat
  day : Nat
deriving DecidableEq, Repr

namespace Date

/-- A well-formed calendar date. -/
def Valid (d : Date) : Prop :=
  1 ≤ d.month ∧ d.month ≤ 12 ∧ 1 ≤ d.day ∧ d.day ≤ daysInMonth d.year d.month

instance decidableValid (d : Date) : Decidable d.Valid :=
  inferInstanceAs (Decidable (_ ∧ _ ∧ _ ∧ _))

/-- A monotone index of dates: agrees with chronological order on valid
dates (months have at most 31 days, years at most 372 slots). -/
def idx (d : Date) : Nat := 372 * d.year + 31 * (d.month - 1) + (d.day - 1)

/-- The calendar day after `d`. -/
def nextDay (d : Date) : Date :=
  if d.day < daysInMonth d.year d.month then ⟨d.year, d.month, d.day + 1⟩
  else if d.month < 12 then ⟨d.year, d.month + 1, 1⟩
  else ⟨d.year + 1, 1, 1⟩

theorem nextDay_valid {d : Date} (h : d.Valid) : d.nextDay.Valid := by
  obtain ⟨h1, h2, h3, h4⟩ := h
  have hb := daysInMonth_bounds d.year d.month
  unfold nextDay Valid
  split
  · refine ⟨?_, ?_, ?_, ?_⟩ <;> dsimp only <;> omega
  · split
    · have hb' := daysInMonth_bounds d.year (d.month + 1)
      refine ⟨?_, ?_, ?_, ?_⟩ <;> dsimp only <;> omega
    · have hb' := daysInMonth_bounds (d.year + 1) 1
      refine ⟨?_, ?_, ?_, ?_⟩ <;> dsimp only <;> omega

theorem nextDay_idx_lt {d : Date} (h : d.Valid) : d.idx < d.nextDay.idx := by
  obtain ⟨h1, h2, h3, h4⟩ := h
  have hb := daysInMonth_bounds d.year d.month
  unfold nextDay idx
  split
  · dsimp only; omega
  · split
    · dsimp only; omega
    · dsimp only; omega

/-- Advance a date by `n` calendar days. -/
def addDays : Date → Nat → Date
  | d, 0 => d
  | d, n + 1 => addDays d.nextDay n

theorem addDays_valid : ∀ (n : Nat) (d : Date), d.Valid → (d.addDays n).Valid
  | 0, _, h => h
  | n + 1, d, h => addDays_valid n d.nextDay (nextDay_valid h)

theorem addDays_idx_lt :
    ∀ (n : Nat) (d : Date), d.Valid → 1 ≤ n → d.idx < (d.addDays n).idx
  | 1, d, h, _ => nextDay_idx_lt h
  | n + 2, d, h, _ =>
    Nat.lt_trans (nextDay_idx_lt h)
      (addDays_idx_lt (n + 1) d.nextDay (nextDay_valid h) (by omega))

/-- Advance a date by `n` calendar months, clamping the day to the length
of the target month. -/
def addMonths (d : Date) (n : Nat) : Date :=
  let m0 := d.month - 1 + n
  let y := d.year + m0 / 12
  let m := m0 % 12 + 1
  ⟨y, m, min d.day (daysInMonth y m)⟩

theorem addMonths_valid {d : Date} (n : Nat) (h : d.Valid) :
    (d.addMonths n).Valid := by
  obtain ⟨h1, h2, h3, h4⟩ := h
  have hb := daysInMonth_bounds (d.year + (d.month - 1 + n) / 12)
    ((d.month - 1 + n) % 12 + 1)
  have hmod : (d.month - 1 + n) % 12 < 12 := Nat.mod_lt _ (by omega)
  unfold addMonths Valid
  simp only
  exact ⟨by omega, by omega, Nat.le_min.mpr ⟨h3, by omega⟩, Nat.min_le_right _ _⟩

theorem addMonths_idx_lt {d : Date} (n : Nat) (h : d.Valid) (hn : 1 ≤ n) :
    d.idx < (d.addMonths n).idx := by
  obtain ⟨h1, h2, h3, h4⟩ := h
  have hb := daysInMonth_bounds d.year d.month
  have hb' := daysInMonth_bounds (d.year + (d.month - 1 + n) / 12)
    ((d.month - 1 + n) % 12 + 1)
  have hdm := Nat.div_add_mod (d.month - 1 + n) 12
  unfold addMonths idx
  simp only
  rcases Nat.le_total d.day (daysInMonth (d.year + (d.month - 1 + n) / 12)
      ((d.month - 1 + n) % 12 + 1)) with hle | hle
  · rw [Nat.min_eq_left hle]; omega
  · rw [Nat.min_eq_right hle]; omega

end Date

/-- The recognized frequencies of a recurring entry template. -/
inductive Frequency where
  | daily
  | weekly
  | monthly
  | quarterly
  | halfYearly
  | yearly
deriving DecidableEq, Repr

/-- The calendar step defined by a frequency. -/
def Frequency.step : Frequency → Date → Date
  | .daily, d => d.addDays 1
  | .weekly, d => d.addDays 7
  | .monthly, d => d.addMonths 1
  | .quarterly, d => d.addMonths 3
  | .halfYearly, d => d.addMonths 6
  | .yearly, d => d.addMonths 12

theorem Frequency.step_valid (f : Frequency) {d : Date} (h : d.Valid) :
    (f.step d).Valid := by
  cases f <;>
    first
      | exact Date.addDays_valid _ d h
      | exact Date.addMonths_valid _ h

theorem Frequency.step_idx_lt (f : Frequency) {d : Date} (h : d.Valid) :
    d.idx < (f.step d).idx := by
  cases f <;>
    first
      | exact Date.addDays_idx_lt _ d h (by omega)
      | exact Date.addMonths_idx_lt _ h (by omega)

/-- Step from `cur` while not beyond `last`, collecting the visited dates.
`fuel` bounds the recursion; `occurrences` passes enough fuel to reach
`last`. -/
def occAux (step : Date → Date) : Nat → Date → Date → List Date
  | 0, _, _ => []
  | fuel + 1, cur, last =>
    if cur.idx ≤ last.idx then cur :: occAux step fuel (step cur) last
    else []

/-- Modelled from the spec: a recurring entry template
(`financeager/entries.py` is absent from `src/`): name, value, category,
and the recurrence given by `frequency`, `start` and `end_`. -/
structure RecurringEntry where
  name : String
  value : Int
  category : Option String
  frequency : Frequency
  start : Date
  end_ : Date
deriving DecidableEq, Repr

/-- Modelled from the spec: `occurrences()` materializes the finite date
sequence from `start` to `end_` inclusive, stepping by the frequency. -/
def RecurringEntry.occurrences (t : RecurringEntry) : List Date :=
  occAux t.frequency.step (t.end_.idx + 1 - t.start.idx) t.start t.end_

theorem occAux_nil_of_gt (step : Date → Date) (fuel : Nat) (cur last : Date)
    (h : last.idx < cur.idx) : occAux step fuel cur last = [] := by
  cases fuel with
  | zero => rfl
  | succ n =>
    unfold occAux
    rw [if_neg (by omega)]

theorem occAux_head (step : Date → Date) (fuel : Nat) (cur last : Date)
    (hfuel : 1 ≤ fuel) (h : cur.idx ≤ last.idx) :
    (occAux step fuel cur last).head? = some cur := by
  cases fuel with
  | zero => omega
  | succ n =>
    unfold occAux
    rw [if_pos h]
    rfl

theorem occAux_mem (step : Date → Date)
    (hstep : ∀ d : Date, d.Valid → (step d).Valid ∧ d.idx < (step d).idx) :
    ∀ (fuel : Nat) (cur last : Date), cur.Valid →
      ∀ d ∈ occAux step fuel cur last,
        d.Valid ∧ cur.idx ≤ d.idx ∧ d.idx ≤ last.idx
  | 0, _, _, _, _, hd => by simp [occAux] at hd
  | fuel + 1, cur, last, hv, d, hd => by
    unfold occAux at hd
    split at hd
    · rcases List.mem_cons.mp hd with rfl | hd'
      · exact ⟨hv, Nat.le_refl _, by omega⟩
      · obtain ⟨hv', hge, hle⟩ := occAux_mem step hstep fuel (step cur) last
          (hstep cur hv).1 d hd'
        exact ⟨hv', by have := (hstep cur hv).2; omega, hle⟩
    · simp at hd

theorem occAux_chain_step (step : Date → Date)
    (hstep : ∀ d : Date, d.Valid → (step d).Valid ∧ d.idx < (step d).idx) :
    ∀ (fuel : Nat) (cur last : Date), cur.Valid →
      last.idx + 1 - cur.idx ≤ fuel →
      List.Chain' (fun a b => b = step a) (occAux step fuel cur last)
  | 0, _, _, _, _ => by
    simp [occAux]
  | fuel + 1, cur, last, hv, hfuel => by
    unfold occAux
    split
    · rename_i hle
      rw [List.chain'_cons']
      constructor
      · intro y hy
        rcases Nat.lt_or_ge last.idx (step cur).idx with hgt | hle'
        · rw [occAux_nil_of_gt step fuel (step cur) last hgt] at hy
          simp at hy
        · have hf : 1 ≤ fuel := by
            have := (hstep cur hv).2
            omega
          rw [occAux_head step fuel (step cur) last hf hle'] at hy
          simp only [Option.mem_def, Option.some.injEq] at hy
          exact hy.symm
      · exact occAux_chain_step step hstep fuel (step cur) last
          (hstep cur hv).1 (by have := (hstep cur hv).2; omega)
    · exact List.chain'_nil

theorem occAux_chain_lt (step : Date → Date)
    (hstep : ∀ d : Date, d.Valid → (step d).Valid ∧ d.idx < (step d).idx) :
    ∀ (fuel : Nat) (cur last : Date), cur.Valid →
      List.Chain' (fun a b : Date => a.idx < b.idx) (occAux step fuel cur last)
  | 0, _, _, _ => by simp [occAux]
  | fuel + 1, cur, last, hv => by
    unfold occAux
    split
    · rw [List.chain'_cons']
      constructor
      · intro y hy
        have hmem : y ∈ occAux step fuel (step cur) last := List.mem_of_mem_head? hy
        have := (occAux_mem step hstep fuel (step cur) last (hstep cur hv).1 y hmem).2.1
        have := (hstep cur hv).2
        omega
      · exact occAux_chain_lt step hstep fuel (step cur) last (hstep cur hv).1
    · exact List.chain'_nil

theorem occAux_getLast (step : Date → Date)
    (hstep : ∀ d : Date, d.Valid → (step d).Valid ∧ d.idx < (step d).idx) :
    ∀ (fuel : Nat) (cur last : Date), cur.Valid →
      last.idx + 1 - cur.idx ≤ fuel →
      ∀ d, (occAux step fuel cur last).getLast? = some d →
        last.idx < (step d).idx
  | 0, cur, last, _, hfuel, d, hd => by
    simp [occAux] at hd
  | fuel + 1, cur, last, hv, hfuel, d, hd => by
    unfold occAux at hd
    split at hd
    · rename_i hle
      rcases Nat.lt_or_ge last.idx (step cur).idx with hgt | hle'
      · rw [occAux_nil_of_gt step fuel (step cur) last hgt] at hd
        simp only [List.getLast?_singleton, Option.some.injEq] at hd
        subst hd
        exact hgt
      · have hf : 1 ≤ fuel := by
          have := (hstep cur hv).2
          omega
        have hhead := occAux_head step fuel (step cur) last hf hle'
        cases hrest : occAux step fuel (step cur) last with
        | nil =>
          rw [hrest] at hhead
          simp at hhead
        | cons r rs =>
          rw [hrest, List.getLast?_cons_cons] at hd
          exact occAux_getLast step hstep fuel (step cur) last (hstep cur hv).1
            (by have := (hstep cur hv).2; omega) d (by rw [hrest]; exact hd)
    · simp at hd

/-- Claim C3: for a valid recurring template with `start ≤ end`,
`occurrences()` returns a finite sequence of dates that starts at `start`,
steps by the frequency, is strictly increasing, stays within
`[start, end]`, and whose last element is the latest reachable date not
exceeding `end` (one more step leaves the range).  The embedding is a pure
function, so re-invocation trivially yields the identical sequence without
mutating the template.  In particular the quarterly template over 2020
materializes exactly the four dates 01-01, 04-01, 07-01, 10-01. -/
theorem C3_occurrences (t : RecurringEntry)
    (hv : t.start.Valid) (hse : t.start.idx ≤ t.end_.idx) :
    t.occurrences.head? = some t.start ∧
    List.Chain' (fun a b : Date => b = t.frequency.step a) t.occurrences ∧
    List.Chain' (fun a b : Date => a.idx < b.idx) t.occurrences ∧
    (∀ d ∈ t.occurrences, t.start.idx ≤ d.idx ∧ d.idx ≤ t.end_.idx) ∧
    (∀ d, t.occurrences.getLast? = some d →
      t.end_.idx < (t.frequency.step d).idx) ∧
    RecurringEntry.occurrences
        ⟨"rent", -1000, none, Frequency.quarterly, ⟨2020, 1, 1⟩, ⟨2020, 12, 31⟩⟩ =
      [⟨2020, 1, 1⟩, ⟨2020, 4, 1⟩, ⟨2020, 7, 1⟩, ⟨2020, 10, 1⟩] := by
  have hstep : ∀ d : Date, d.Valid →
      (t.frequency.step d).Valid ∧ d.idx < (t.frequency.step d).idx :=
    fun d hd => ⟨Frequency.step_valid t.frequency hd,
      Frequency.step_idx_lt t.frequency hd⟩
  refine ⟨?_, ?_, ?_, ?_, ?_, by decide⟩
  · exact occAux_head t.frequency.step _ t.start t.end_ (by omega) hse
  · exact occAux_chain_step t.frequency.step hstep _ t.start t.end_ hv
      (Nat.le_refl _)
  · exact occAux_chain_lt t.frequency.step hstep _ t.start t.end_ hv
  · intro d hd
    exact (occAux_mem t.frequency.step hstep _ t.start t.end_ hv d hd).2
  · intro d hd
    exact occAux_getLast t.frequency.step hstep _ t.start t.end_ hv
      (Nat.le_refl _) d hd

/-- Concrete witness for C3, instantiating the theorem on the quarterly
template over 2020. -/
theorem C3_occurrences_witness :
    (RecurringEntry.occurrences
        ⟨"rent", -1000, none, Frequency.quarterly, ⟨2020, 1, 1⟩, ⟨2020, 12, 31⟩⟩).head? =
      some ⟨2020, 1, 1⟩ ∧
    RecurringEntry.occurrences
        ⟨"rent", -1000, none, Frequency.quarterly, ⟨2020, 1, 1⟩, ⟨2020, 12, 31⟩⟩ =
      [⟨2020, 1, 1⟩, ⟨2020, 4, 1⟩, ⟨2020, 7, 1⟩, ⟨2020, 10, 1⟩] := by
  have h := C3_occurrences
    ⟨"rent", -1000, none, Frequency.quarterly, ⟨2020, 1, 1⟩, ⟨2020, 12, 31⟩⟩
    (by decide) (by decide)
  exact ⟨h.1, h.2.2.2.2.2⟩

/-! ### Entries, periods, server (claims C5, C6, C7) -/

namespace CategoryEntry

/-- Modelled from the spec: the default category sentinel of
`financeager/entries.py` (absent from `src/`); entries whose category was
never explicitly set carry it. -/
def DEFAULT_NAME : String := "unspecified"

end CategoryEntry

/-- Modelled from the spec: a one-off entry (`financeager/entries.py` is
absent from `src/`).  `category = none` means the category was never
explicitly set (displayed as the default sentinel). -/
structure BaseEntry where
  name : String
  value : Int
  category : Option String
  date : String
deriving DecidableEq, Repr

/-- An element stored in a period table: a one-off entry or a recurring
entry template. -/
inductive Element where
  | base (e : BaseEntry)
  | recurrent (e : RecurringEntry)
deriving DecidableEq, Repr

/-- The two table kinds of a period. -/
inductive TableName where
  | standard
  | recurrent
deriving DecidableEq, Repr

/-- Modelled from the spec: a `Period` (`financeager/period.py` is absent
from `src/`) owns exactly two tables. -/
structure Period where
  name : String
  standard : Table Element
  recurrent : Table Element
deriving DecidableEq, Repr

namespace Period

def new (name : String) : Period := ⟨name, Table.empty, Table.empty⟩

def getTable (p : Period) : TableName → Table Element
  | .standard => p.standard
  | .recurrent => p.recurrent

def setTable (p : Period) : TableName → Table Element → Period
  | .standard, t => { p with standard := t }
  | .recurrent, t => { p with recurrent := t }

theorem getTable_setTable (p : Period) (tn : TableName) (t : Table Element) :
    (p.setTable tn t).getTable tn = t := by
  cases tn <;> rfl

theorem getTable_setTable_other (p : Period) (tn tn' : TableName)
    (t : Table Element) (h : tn' ≠ tn) :
    (p.setTable tn t).getTable tn' = p.getTable tn' := by
  cases tn <;> cases tn' <;> first | rfl | exact absurd rfl h

end Period

/-- Typed errors raised by server-level operations. -/
inductive ServerError where
  | notFoundError
  | invalidRequest (msg : String)
deriving DecidableEq, Repr

/-- Modelled from the spec: the `Server` (`financeager/server.py` is absent
from `src/`): a registry of periods keyed by name, in creation order. -/
structure Server where
  periods : List (String × Period)
deriving DecidableEq, Repr

namespace Server

def lookupPeriod (s : Server) (name : String) : Option Period :=
  (s.periods.find? (fun q => q.1 == name)).map Prod.snd

/-- Resolve a period by name, creating and registering an empty one if none
exists yet. -/
def getPeriod (s : Server) (name : String) : Period × Server :=
  match s.lookupPeriod name with
  | some p => (p, s)
  | none => (Period.new name, ⟨s.periods ++ [(name, Period.new name)]⟩)

/-- Store `p` under key `name`, replacing an existing registration. -/
def setPeriod (s : Server) (name : String) (p : Period) : Server :=
  if (s.periods.find? (fun q => q.1 == name)).isSome then
    ⟨s.periods.map (fun q => if q.1 == name then (name, p) else q)⟩
  else
    ⟨s.periods ++ [(name, p)]⟩

/-- Modelled from the spec: `copy_entry` fetches the entry from the source
table, re-inserts a copy with a fresh eid into the destination
period/table (the destination period is created if it does not yet exist),
and fails with `NotFoundError` if the source entry does not exist. -/
def copy_entry (s : Server) (eid : Nat) (source_period : String)
    (source_table : TableName) (destination_period : String)
    (destination_table : TableName) : Except ServerError (Nat × Server) :=
  match s.lookupPeriod source_period with
  | none => Except.error ServerError.notFoundError
  | some sp =>
    match (sp.getTable source_table).get eid with
    | none => Except.error ServerError.notFoundError
    | some e =>
      let dres := s.getPeriod destination_period
      let ares := (dres.1.getTable destination_table).add e
      Except.ok (ares.1,
        dres.2.setPeriod destination_period
          (dres.1.setTable destination_table ares.2))

end Server

theorem find?_update_self {β : Type} (name : String) (p : β) :
    ∀ l : List (String × β),
      (l.find? (fun q => q.1 == name)).isSome = true →
      (l.map (fun q => if q.1 == name then (name, p) else q)).find?
          (fun q => q.1 == name) = some (name, p)
  | [], h => by simp [List.find?] at h
  | q :: rest, h => by
    by_cases hq : (q.1 == name) = true
    · simp only [List.map_cons, if_pos hq, List.find?_cons]
      simp
    · have hq' : (q.1 == name) = false := by
        rw [← Bool.not_eq_true]
        exact hq
      simp only [List.map_cons, if_neg hq]
      simp only [List.find?_cons, hq']
      simp only [List.find?_cons, hq'] at h
      exact find?_update_self name p rest h

theorem find?_update_other {β : Type} (name other : String) (p : β)
    (h : other ≠ name) :
    ∀ l : List (String × β),
      (l.map (fun q => if q.1 == name then (name, p) else q)).find?
          (fun q => q.1 == other) = l.find? (fun q => q.1 == other)
  | [] => rfl
  | q :: rest => by
    by_cases hq : (q.1 == name) = true
    · have hq1 : q.1 = name := by simpa using hq
      have hno : (((name, p) : String × β).1 == other) = false := by
        rw [← Bool.not_eq_true]
        simp only [beq_iff_eq]
        exact fun hc => h hc.symm
      have hqo : (q.1 == other) = false := by
        rw [← Bool.not_eq_true]
        simp only [beq_iff_eq, hq1]
        exact fun hc => h hc.symm
      simp only [List.map_cons, if_pos hq, List.find?_cons, hno, hqo]
      exact find?_update_other name other p h rest
    · simp only [List.map_cons, if_neg hq]
      cases hqo : (q.1 == other) with
      | true => simp only [List.find?_cons, hqo]
      | false =>
        simp only [List.find?_cons, hqo]
        exact find?_update_other name other p h rest

theorem lookupPeriod_setPeriod_self (s : Server) (name : String) (p : Period) :
    (s.setPeriod name p).lookupPeriod name = some p := by
  unfold Server.setPeriod Server.lookupPeriod
  split
  · rename_i hfound
    dsimp only
    rw [find?_update_self name p s.periods hfound]
    rfl
  · rename_i hnone
    dsimp only
    rw [List.find?_append]
    have hnone' : s.periods.find? (fun q => q.1 == name) = none := by
      cases hfind : s.periods.find? (fun q => q.1 == name) with
      | none => rfl
      | some v =>
        rw [hfind] at hnone
        simp at hnone
    rw [hnone']
    simp only [Option.none_or, List.find?_cons]
    simp

theorem lookupPeriod_setPeriod_other (s : Server) (name other : String)
    (p : Period) (h : other ≠ name) :
    (s.setPeriod name p).lookupPeriod other = s.lookupPeriod other := by
  unfold Server.setPeriod Server.lookupPeriod
  split
  · dsimp only
    rw [find?_update_other name other p h s.periods]
  · dsimp only
    rw [List.find?_append]
    have hno : (((name, p) : String × Period).1 == other) = false := by
      rw [← Bool.not_eq_true]
      simp only [beq_iff_eq]
      exact fun hc => h hc.symm
    have hsing : List.find? (fun q => q.1 == other) [(name, p)] = none := by
      simp only [List.find?_cons, hno]
      rfl
    rw [hsing, Option.or_none]

theorem lookupPeriod_getPeriod_snd (s : Server) (name other : String) :
    ((s.getPeriod name).2).lookupPeriod other =
      if other = name then some (s.getPeriod name).1
      else s.lookupPeriod other := by
  unfold Server.getPeriod
  cases hl : s.lookupPeriod name with
  | some p =>
    dsimp only
    split
    · rename_i he
      subst he
      exact hl
    · rfl
  | none =>
    dsimp only
    unfold Server.lookupPeriod at hl ⊢
    rw [Option.map_eq_none'] at hl
    rw [List.find?_append]
    split
    · rename_i he
      subst he
      rw [hl]
      simp only [Option.none_or, List.find?_cons]
      simp
    · rename_i he
      have hno : (((name, Period.new name) : String × Period).1 == other) = false := by
        rw [← Bool.not_eq_true]
        simp only [beq_iff_eq]
        exact fun hc => he hc.symm
      have hsing : List.find? (fun q => q.1 == other) [(name, Period.new name)] = none := by
        simp only [List.find?_cons, hno]
        rfl
      rw [hsing, Option.or_none]

/-- A table whose entry keys were all assigned by the table itself; every
table arising in a table lifetime satisfies this (see `applyOps_spec`). -/
def TableWF (t : Table Element) : Prop :=
  ∀ q ∈ t.entries, q.1 ∈ t.assigned

instance decidableTableWF (t : Table Element) : Decidable (TableWF t) :=
  inferInstanceAs (Decidable (∀ q ∈ t.entries, q.1 ∈ t.assigned))

theorem le_foldr_max (x : Nat) :
    ∀ l : List Nat, x ∈ l → x ≤ l.foldr max 0
  | [], hmem => absurd hmem (List.not_mem_nil x)
  | a :: rest, hmem => by
    rcases List.mem_cons.mp hmem with rfl | hmem'
    · simp only [List.foldr_cons]
      omega
    · have := le_foldr_max x rest hmem'
      simp only [List.foldr_cons]
      omega

theorem get_add_self (t : Table Element) (e : Element) (hwf : TableWF t) :
    ((t.add e).2).get (t.add e).1 = some e := by
  unfold Table.add Table.get Table.nextEid
  simp only
  rw [List.find?_append]
  have hnone : t.entries.find? (fun q => q.1 == t.maxAssigned + 1) = none := by
    rw [List.find?_eq_none]
    intro q hq
    have hmem := hwf q hq
    have hle : q.1 ≤ t.maxAssigned := le_foldr_max q.1 t.assigned hmem
    simp only [beq_iff_eq]
    omega
  rw [hnone]
  simp [List.find?]

/-- Claim C5 (amended): for an existing source entry, `copy_entry` inserts
into the destination table a copy equal to the source entry in every field,
under a freshly assigned eid; when the destination period is distinct from
the source period, the source period is unchanged; the destination period
is created if missing; a missing source entry yields `NotFoundError` with
no period modified. -/
theorem C5_copy_entry (s : Server) (eid : Nat)
    (source_period destination_period : String)
    (source_table destination_table : TableName)
    (sp : Period) (e : Element)
    (h1 : s.lookupPeriod source_period = some sp)
    (h2 : (sp.getTable source_table).get eid = some e)
    (hwf : TableWF ((s.getPeriod destination_period).1.getTable destination_table)) :
    (∃ s' : Server,
      s.copy_entry eid source_period source_table destination_period
          destination_table =
        Except.ok (((s.getPeriod destination_period).1.getTable
            destination_table).nextEid, s') ∧
      (∃ dp' : Period, s'.lookupPeriod destination_period = some dp' ∧
        (dp'.getTable destination_table).get
            (((s.getPeriod destination_period).1.getTable
              destination_table).nextEid) = some e) ∧
      (destination_period ≠ source_period →
        s'.lookupPeriod source_period = some sp)) ∧
    (∀ eid', (sp.getTable source_table).get eid' = none →
      s.copy_entry eid' source_period source_table destination_period
          destination_table = Except.error ServerError.notFoundError) := by
  constructor
  · refine ⟨(s.getPeriod destination_period).2.setPeriod destination_period
      ((s.getPeriod destination_period).1.setTable destination_table
        (((s.getPeriod destination_period).1.getTable destination_table).add e).2),
      ?_, ?_, ?_⟩
    · unfold Server.copy_entry
      rw [h1]
      simp only
      rw [h2]
      rfl
    · refine ⟨_, lookupPeriod_setPeriod_self _ _ _, ?_⟩
      rw [Period.getTable_setTable]
      exact get_add_self _ e hwf
    · intro hne
      rw [lookupPeriod_setPeriod_other _ _ _ _ hne.symm,
        lookupPeriod_getPeriod_snd]
      rw [if_neg (fun hc => hne hc.symm)]
      exact h1
  · intro eid' hnone
    unfold Server.copy_entry
    rw [h1]
    simp only
    rw [hnone]

/-- Concrete witness for C5 (amended): copying entry 1 of period `"2000"`
into the fresh period `"2001"` assigns eid 1 there, stores an equal entry,
and leaves the source period unchanged; copying the absent eid 42 fails
with `NotFoundError`. -/
theorem C5_copy_entry_witness :
    (Server.copy_entry
        ⟨[("2000", ⟨"2000",
          ⟨[(1, Element.base ⟨"pants", -99, some "clothes", "05-01"⟩)], [1]⟩,
          Table.empty⟩)]⟩
        1 "2000" TableName.standard "2001" TableName.standard).isOk = true ∧
    (Server.copy_entry
        ⟨[("2000", ⟨"2000",
          ⟨[(1, Element.base ⟨"pants", -99, some "clothes", "05-01"⟩)], [1]⟩,
          Table.empty⟩)]⟩
        42 "2000" TableName.standard "2001" TableName.standard =
      Except.error ServerError.notFoundError) := by
  have h := C5_copy_entry
    ⟨[("2000", ⟨"2000",
      ⟨[(1, Element.base ⟨"pants", -99, some "clothes", "05-01"⟩)], [1]⟩,
      Table.empty⟩)]⟩
    1 "2000" "2001" TableName.standard TableName.standard
    ⟨"2000", ⟨[(1, Element.base ⟨"pants", -99, some "clothes", "05-01"⟩)], [1]⟩,
      Table.empty⟩
    (Element.base ⟨"pants", -99, some "clothes", "05-01"⟩)
    (by decide) (by decide) (by decide)
  obtain ⟨⟨s', hok, _, _⟩, hfail⟩ := h
  constructor
  · rw [hok]; rfl
  · exact hfail 42 (by decide)

/-- Counterexample to C5 as stated: copying an entry within one period
(source period = destination period) succeeds but the source period does
not stay unchanged — it gains the copy. -/
theorem C5_copy_entry_counterexample :
    ∃ s' : Server,
      Server.copy_entry
          ⟨[("2000", ⟨"2000",
            ⟨[(1, Element.base ⟨"pants", -99, some "clothes", "05-01"⟩)], [1]⟩,
            Table.empty⟩)]⟩
          1 "2000" TableName.standard "2000" TableName.standard =
        Except.ok (2, s') ∧
      s'.lookupPeriod "2000" ≠
        some ⟨"2000",
          ⟨[(1, Element.base ⟨"pants", -99, some "clothes", "05-01"⟩)], [1]⟩,
          Table.empty⟩ := by
  refine ⟨⟨[("2000", ⟨"2000",
    ⟨[(1, Element.base ⟨"pants", -99, some "clothes", "05-01"⟩),
      (2, Element.base ⟨"pants", -99, some "clothes", "05-01"⟩)], [1, 2]⟩,
    Table.empty⟩)]⟩, ?_, ?_⟩
  · rfl
  · decide

/-! ### Listing with filters and the command dispatcher (claims C6, C7) -/

/-- Case-insensitive substring containment. -/
def containsCI (hay pat : String) : Bool :=
  decide (List.IsInfix pat.toLower.toList hay.toLower.toList)

/-- The normalized filter mapping sent to the server: optional substring
patterns for name and date; for category, `some none` is the normalized
no-category marker produced by the CLI layer. -/
structure Filters where
  name : Option String
  date : Option String
  category : Option (Option String)
deriving DecidableEq, Repr

/-- Modelled from the spec: an entry matches the filters iff its name,
date and category each case-insensitively contain the corresponding filter
substring when that filter is present; the no-category marker matches
exactly the entries whose category was never set; absent filters impose no
constraint. -/
def matchesFilters (f : Filters) (name date : String)
    (category : Option String) : Bool :=
  (match f.name with
   | none => true
   | some s => containsCI name s) &&
  (match f.date with
   | none => true
   | some s => containsCI date s) &&
  (match f.category with
   | none => true
   | some none => decide (category = none)
   | some (some s) =>
     match category with
     | none => false
     | some c => containsCI c s)

def pad2 (n : Nat) : String :=
  if n < 10 then "0" ++ toString n else toString n

/-- Format a date in the period date format `MM-DD`. -/
def formatDate (d : Date) : String := pad2 d.month ++ "-" ++ pad2 d.day

/-- One materialized occurrence of a recurring template: same name, value
and category; only the date varies. -/
def RecurringEntry.occurrenceAt (t : RecurringEntry) (d : Date) : BaseEntry :=
  ⟨t.name, t.value, t.category, formatDate d⟩

def matchesBase (f : Filters) (b : BaseEntry) : Bool :=
  matchesFilters f b.name b.date b.category

/-- Modelled from the spec: `list(filters)` over a period returns the
matching standard entries and, for the recurrent table, the matching
materialized occurrences of each template. -/
def Period.list (p : Period) (f : Filters) :
    List (Nat × Element) × List (Nat × List BaseEntry) :=
  (p.standard.entries.filter (fun q =>
     match q.2 with
     | Element.base b => matchesBase f b
     | Element.recurrent _ => false),
   p.recurrent.entries.map (fun q =>
     (q.1,
      match q.2 with
      | Element.recurrent t =>
        (t.occurrences.map t.occurrenceAt).filter (matchesBase f)
      | Element.base b => if matchesBase f b then [b] else [])))

/-- Modelled from the spec: the name of the default period (the current
calendar year as a string). -/
def default_period_name : String := "2022"

/-- Modelled from the spec: the submission day used as the default date of
a new entry. -/
def today : String := "06-15"

/-- The request parameters of one server command. -/
structure Params where
  name : Option String
  value : Option Int
  category : Option String
  date : Option String
  table_name : Option TableName
  frequency : Option Frequency
  start : Option Date
  end_ : Option Date
  period : Option String
  source_period : Option String
  destination_period : Option String
  eid : Option Nat
  filters : Option Filters
deriving Repr

/-- A parameter set with no parameter given. -/
def Params.empty : Params :=
  ⟨none, none, none, none, none, none, none, none, none, none, none, none,
    none⟩

/-- A server response: exactly one of id, element, elements, periods or
error. -/
inductive Response where
  | id (eid : Nat)
  | element (e : Element)
  | elements (standard : List (Nat × Element))
      (recurrent : List (Nat × List BaseEntry))
  | periods (names : List String)
  | error (msg : String)
deriving DecidableEq, Repr

/-- Merge the provided entry fields into an existing element
(the `update` command). -/
def Element.update (el : Element) (p : Params) : Element :=
  match el with
  | .base b =>
    .base ⟨p.name.getD b.name, p.value.getD b.value,
      (match p.category with
       | some c => some c
       | none => b.category),
      p.date.getD b.date⟩
  | .recurrent t =>
    .recurrent ⟨p.name.getD t.name, p.value.getD t.value,
      (match p.category with
       | some c => some c
       | none => t.category),
      p.frequency.getD t.frequency, p.start.getD t.start,
      p.end_.getD t.end_⟩

/-- Replace the entry stored under `eid` by its field-merged update. -/
def updateTable (t : Table Element) (eid : Nat) (p : Params) :
    Option (Table Element) :=
  match t.get eid with
  | none => none
  | some el =>
    some ⟨t.entries.map (fun q =>
      if q.1 == eid then (eid, el.update p) else q), t.assigned⟩

/-- The recognized command vocabulary of the server. -/
def KNOWN_COMMANDS : List String :=
  ["add", "get", "update", "remove", "copy", "list", "periods"]

/-- Modelled from the spec: the `Server.run(command, params)` dispatcher
(`financeager/server.py` is absent from `src/`).  Known commands resolve
the target period (creating it on first reference) and delegate to its
tables, raising typed errors for bad requests; an unknown command yields a
response with an `error` field naming the command, never a raised fault. -/
def Server.run (s : Server) (command : String) (p : Params) :
    Except ServerError (Response × Server) :=
  if command = "add" then
    match p.name, p.value with
    | some nm, some v =>
      let pname := p.period.getD default_period_name
      let pr := s.getPeriod pname
      match p.table_name.getD TableName.standard with
      | TableName.standard =>
        let ares := (pr.1.getTable TableName.standard).add
          (Element.base ⟨nm, v, p.category, p.date.getD today⟩)
        Except.ok (Response.id ares.1,
          pr.2.setPeriod pname (pr.1.setTable TableName.standard ares.2))
      | TableName.recurrent =>
        match p.frequency, p.start, p.end_ with
        | some fr, some st, some en =>
          let ares := (pr.1.getTable TableName.recurrent).add
            (Element.recurrent ⟨nm, v, p.category, fr, st, en⟩)
          Except.ok (Response.id ares.1,
            pr.2.setPeriod pname (pr.1.setTable TableName.recurrent ares.2))
        | _, _, _ =>
          Except.error (ServerError.invalidRequest "Missing recurrence fields")
    | _, _ => Except.error (ServerError.invalidRequest "Missing name or value")
  else if command = "get" then
    match p.eid with
    | none => Except.error (ServerError.invalidRequest "Missing eid")
    | some eid =>
      let pr := s.getPeriod (p.period.getD default_period_name)
      match (pr.1.getTable (p.table_name.getD TableName.standard)).get eid with
      | none => Except.error ServerError.notFoundError
      | some el => Except.ok (Response.element el, pr.2)
  else if command = "update" then
    match p.eid with
    | none => Except.error (ServerError.invalidRequest "Missing eid")
    | some eid =>
      let pname := p.period.getD default_period_name
      let pr := s.getPeriod pname
      let tn := p.table_name.getD TableName.standard
      match updateTable (pr.1.getTable tn) eid p with
      | none => Except.error ServerError.notFoundError
      | some t' =>
        Except.ok (Response.id eid, pr.2.setPeriod pname (pr.1.setTable tn t'))
  else if command = "remove" then
    match p.eid with
    | none => Except.error (ServerError.invalidRequest "Missing eid")
    | some eid =>
      let pname := p.period.getD default_period_name
      let pr := s.getPeriod pname
      let tn := p.table_name.getD TableName.standard
      match (pr.1.getTable tn).remove eid with
      | none => Except.error ServerError.notFoundError
      | some r =>
        Except.ok (Response.id eid,
          pr.2.setPeriod pname (pr.1.setTable tn r.2))
  else if command = "copy" then
    match p.eid with
    | none => Except.error (ServerError.invalidRequest "Missing eid")
    | some eid =>
      (s.copy_entry eid (p.source_period.getD default_period_name)
          (p.table_name.getD TableName.standard)
          (p.destination_period.getD default_period_name)
          (p.table_name.getD TableName.standard)).map
        (fun r => (Response.id r.1, r.2))
  else if command = "list" then
    let pr := s.getPeriod (p.period.getD default_period_name)
    let lst := pr.1.list (p.filters.getD ⟨none, none, none⟩)
    Except.ok (Response.elements lst.1 lst.2, pr.2)
  else if command = "periods" then
    Except.ok (Response.periods (s.periods.map Prod.fst), s)
  else
    Except.ok (Response.error ("Unknown command: " ++ command), s)

/-- Claim C7: for every command string outside the recognized vocabulary,
`Server.run` returns normally with an error response whose message names
the unrecognized command (the command string is a suffix of the message);
it never raises for unrecognized input. -/
theorem C7_unknown_command (s : Server) (command : String) (p : Params)
    (h : command ∉ KNOWN_COMMANDS) :
    s.run command p =
      Except.ok (Response.error ("Unknown command: " ++ command), s) ∧
    ("Unknown command: " ++ command).toList =
      "Unknown command: ".toList ++ command.toList := by
  simp only [KNOWN_COMMANDS, List.mem_cons, not_or, List.not_mem_nil,
    or_false] at h
  obtain ⟨h1, h2, h3, h4, h5, h6, h7⟩ := h
  constructor
  · unfold Server.run
    rw [if_neg h1, if_neg h2, if_neg h3, if_neg h4, if_neg h5, if_neg h6,
      if_neg h7]
  · simp

/-- Concrete witness for C7: the unknown command `"peace"` on a fresh
server. -/
theorem C7_unknown_command_witness :
    Server.run ⟨[]⟩ "peace" Params.empty =
      Except.ok (Response.error ("Unknown command: " ++ "peace"), ⟨[]⟩) :=
  (C7_unknown_command ⟨[]⟩ "peace" Params.empty (by decide)).1

/-! ### The CLI preprocessing step, from src/financeager/cli.py (claims C6, C10) -/

/-- Generic lookup in a Python dict modelled as an assoc list. -/
def assocGet {β : Type} (l : List (String × β)) (k : String) : Option β :=
  (l.find? (fun q => q.1 == k)).map Prod.snd

/-- Generic Python dict assignment `l[k] = v`: replace in place, or append
a new key at the end. -/
def assocSet {β : Type} (l : List (String × β)) (k : String) (v : β) :
    List (String × β) :=
  if (l.find? (fun q => q.1 == k)).isSome then
    l.map (fun q => if q.1 == k then (k, v) else q)
  else l ++ [(k, v)]

theorem assocGet_assocSet_self {β : Type} (l : List (String × β))
    (k : String) (v : β) : assocGet (assocSet l k v) k = some v := by
  unfold assocSet assocGet
  split
  · rename_i hfound
    rw [find?_update_self k v l hfound]
    rfl
  · rename_i hnone
    rw [List.find?_append]
    have hnone' : l.find? (fun q => q.1 == k) = none := by
      cases hfind : l.find? (fun q => q.1 == k) with
      | none => rfl
      | some q =>
        rw [hfind] at hnone
        simp at hnone
    rw [hnone']
    simp only [Option.none_or, List.find?_cons]
    simp

theorem assocGet_assocSet_other {β : Type} (l : List (String × β))
    (k k' : String) (v : β) (h : k' ≠ k) :
    assocGet (assocSet l k v) k' = assocGet l k' := by
  unfold assocSet assocGet
  split
  · rw [find?_update_other k k' v h l]
  · rw [List.find?_append]
    have hno : (((k, v) : String × β).1 == k') = false := by
      rw [← Bool.not_eq_true]
      simp only [beq_iff_eq]
      exact fun hc => h hc.symm
    have hsing : List.find? (fun q => q.1 == k') [(k, v)] = none := by
      simp only [List.find?_cons, hno]
      rfl
    rw [hsing, Option.or_none]

/-- `str.split("=")` on the underlying character list: split at every
`=`, keeping empty groups. -/
def splitEqChars : List Char → List (List Char)
  | [] => [[]]
  | c :: rest =>
    if c = '=' then [] :: splitEqChars rest
    else
      match splitEqChars rest with
      | [] => [[c]]
      | g :: gs => (c :: g) :: gs

/-- `item.split("=")` as used by the filter-parsing loop of
`_preprocess`. -/
def splitEq (s : String) : List String :=
  (splitEqChars s.toList).map (fun l => ⟨l⟩)

theorem splitEqChars_no_sep : ∀ l : List Char, '=' ∉ l → splitEqChars l = [l]
  | [], _ => rfl
  | c :: rest, h => by
    have hc : ¬(c = '=') := fun hc' => h (by
      rw [hc'] at *
      exact List.mem_cons_self _ _)
    have ih := splitEqChars_no_sep rest
      (fun hm => h (List.mem_cons_of_mem c hm))
    unfold splitEqChars
    rw [if_neg hc, ih]

theorem splitEqChars_single_sep (v : List Char) (hv : '=' ∉ v) :
    ∀ k : List Char, '=' ∉ k → splitEqChars (k ++ '=' :: v) = [k, v]
  | [], _ => by
    rw [List.nil_append]
    unfold splitEqChars
    rw [if_pos rfl, splitEqChars_no_sep v hv]
  | c :: k', hk => by
    have hc : ¬(c = '=') := fun hc' => hk (by
      rw [hc'] at *
      exact List.mem_cons_self _ _)
    have ih := splitEqChars_single_sep v hv k'
      (fun hm => hk (List.mem_cons_of_mem c hm))
    rw [List.cons_append]
    unfold splitEqChars
    rw [if_neg hc, ih]

/-- The exceptions of `_preprocess` (`PreprocessingError`), tagged with
which check failed. -/
inductive PreprocessingError where
  | invalidDateFormat
  | invalidFilterFormat (item : String)
deriving DecidableEq, Repr

/-- The filter-parsing loop of `_preprocess` (cli.py lines 132-136): each
item is split at `=` into exactly a key and a value (any other number of
parts fails to unpack, a `ValueError` reported with the offending item)
and the lowercased value is stored under the key. -/
def parseFilterItems : List String → List (String × String) →
    Except String (List (String × String))
  | [], acc => Except.ok acc
  | item :: rest, acc =>
    match splitEq item with
    | [k, v] => parseFilterItems rest (assocSet acc k v.toLower)
    | _ => Except.error item

/-- The category-default substitution after the loop (cli.py lines
138-144): a category value equal to `CategoryEntry.DEFAULT_NAME` is
replaced by `None`. -/
def substituteCategory (parsed : List (String × String)) :
    List (String × Option String) :=
  parsed.map (fun q =>
    if q.1 == "category" && q.2 == CategoryEntry.DEFAULT_NAME then (q.1, none)
    else (q.1, some q.2))

/-- The filters half of `_preprocess` (cli.py lines 129-149). -/
def preprocessFilters (data : Dict) : Dict × Option PreprocessingError :=
  match assocGet data "filters" with
  | some (Val.vlist items) =>
    match parseFilterItems items [] with
    | Except.ok parsed =>
      (assocSet data "filters" (Val.vdict (substituteCategory parsed)), none)
    | Except.error item =>
      (data, some (PreprocessingError.invalidFilterFormat item))
  | _ => (data, none)

/-- Embedding of `cli._preprocess` (src/financeager/cli.py lines 112-149).
The external `datetime.strptime`/`strftime` conversion is passed in as
`strptime` (argument: date string and format; `none` encodes the
`ValueError` of a failed parse).  The result is the dict as left by the
call — Python mutates `data` in place, so a later filter-format error
still leaves an already converted date in the dict — together with the
raised error, if any. -/
def preprocess (data : Dict) (date_format : Option String)
    (strptime : String → String → Option String) :
    Dict × Option PreprocessingError :=
  match assocGet data "date", date_format with
  | some (Val.vstr d), some fmt =>
    match strptime d fmt with
    | none => (data, some PreprocessingError.invalidDateFormat)
    | some newd => preprocessFilters (assocSet data "date" (Val.vstr newd))
  | _, _ => preprocessFilters data

/-- The typing contract of the CLI parameter dict: argparse produces a
string or `None` under `date`, and a list of strings or `None` under
`filters`. -/
def dictWT (data : Dict) : Bool :=
  (match assocGet data "date" with
   | some (Val.vstr _) => true
   | some Val.vnone => true
   | none => true
   | _ => false) &&
  (match assocGet data "filters" with
   | some (Val.vlist _) => true
   | some Val.vnone => true
   | none => true
   | _ => false)

theorem parseFilterItems_isOk :
    ∀ (items : List String) (acc : List (String × String)),
      (parseFilterItems items acc).isOk =
        items.all (fun it => (splitEq it).length == 2)
  | [], _ => rfl
  | item :: rest, acc => by
    unfold parseFilterItems
    rcases hs : splitEq item with _ | ⟨a, _ | ⟨b, _ | ⟨c, tl⟩⟩⟩
    · simp [List.all_cons, hs, Except.isOk, Except.toBool]
    · simp [List.all_cons, hs, Except.isOk, Except.toBool]
    · rw [parseFilterItems_isOk rest (assocSet acc a b.toLower)]
      simp [List.all_cons, hs]
    · simp [List.all_cons, hs, Except.isOk, Except.toBool]

theorem preprocessFilters_other (data : Dict) (k : String)
    (hk : k ≠ "filters") :
    assocGet (preprocessFilters data).1 k = assocGet data k := by
  unfold preprocessFilters
  cases hf : assocGet data "filters" with
  | none => rfl
  | some v =>
    cases v with
    | vlist items =>
      dsimp only
      cases hp : parseFilterItems items [] with
      | ok parsed =>
        dsimp only
        exact assocGet_assocSet_other data "filters" k _ hk
      | error item => rfl
    | vstr s => rfl
    | vnone => rfl
    | vdict w => rfl
    | vint i => rfl
    | vbool b => rfl

theorem preprocessFilters_none (data : Dict)
    (hf : assocGet data "filters" = none) :
    preprocessFilters data = (data, none) := by
  unfold preprocessFilters
  rw [hf]

theorem preprocessFilters_err (data : Dict) :
    (preprocessFilters data).2 ≠ none ↔
      ∃ items, assocGet data "filters" = some (Val.vlist items) ∧
        ∃ it ∈ items, (splitEq it).length ≠ 2 := by
  unfold preprocessFilters
  cases hf : assocGet data "filters" with
  | none => simp
  | some v =>
    cases v with
    | vlist items =>
      dsimp only
      have hok := parseFilterItems_isOk items []
      cases hp : parseFilterItems items [] with
      | ok parsed =>
        rw [hp] at hok
        simp only [Except.isOk, Except.toBool] at hok
        dsimp only
        simp only [ne_eq, not_true_eq_false, false_iff, not_exists]
        intro items'
        rintro ⟨heq, it, hit, hlen⟩
        rw [Option.some_inj, Val.vlist.injEq] at heq
        subst heq
        rw [eq_comm, List.all_eq_true] at hok
        have hlen2 := hok it hit
        simp only [beq_iff_eq] at hlen2
        exact hlen hlen2
      | error item =>
        rw [hp] at hok
        simp only [Except.isOk, Except.toBool] at hok
        dsimp only
        simp only [ne_eq, reduceCtorEq, not_false_eq_true, true_iff]
        refine ⟨items, rfl, ?_⟩
        rw [eq_comm, List.all_eq_false] at hok
        obtain ⟨it, hit, hlen⟩ := hok
        refine ⟨it, hit, ?_⟩
        simpa using hlen
    | vstr s => simp
    | vnone => simp
    | vdict w => simp
    | vint i => simp
    | vbool b => simp

theorem preprocessFilters_err_dict (data : Dict) (e : PreprocessingError)
    (h : (preprocessFilters data).2 = some e) :
    (preprocessFilters data).1 = data := by
  unfold preprocessFilters at h ⊢
  cases hf : assocGet data "filters" with
  | none => rfl
  | some v =>
    rw [hf] at h
    cases v with
    | vlist items =>
      dsimp only at h ⊢
      cases hp : parseFilterItems items [] with
      | ok parsed =>
        rw [hp] at h
        simp at h
      | error item => rfl
    | vstr s => rfl
    | vnone => rfl
    | vdict w => rfl
    | vint i => rfl
    | vbool b => rfl

theorem preprocess_filters_only (data : Dict) (date_format : Option String)
    (strptime : String → String → Option String)
    (hpp : preprocess data date_format strptime = preprocessFilters data)
    (hnodf : ∀ d fmt, assocGet data "date" = some (Val.vstr d) →
      date_format = some fmt → strptime d fmt ≠ none) :
    (∀ k, k ≠ "date" → k ≠ "filters" →
      assocGet (preprocess data date_format strptime).1 k = assocGet data k) ∧
    (assocGet data "filters" = none →
      preprocess data date_format strptime = (data, none)) ∧
    ((preprocess data date_format strptime).2 ≠ none ↔
      ((∃ d fmt, assocGet data "date" = some (Val.vstr d) ∧
          date_format = some fmt ∧ strptime d fmt = none) ∨
        ∃ items, assocGet data "filters" = some (Val.vlist items) ∧
          ∃ it ∈ items, (splitEq it).length ≠ 2)) ∧
    ((∃ d fmt, assocGet data "date" = some (Val.vstr d) ∧
        date_format = some fmt ∧ strptime d fmt = none) →
      preprocess data date_format strptime =
        (data, some PreprocessingError.invalidDateFormat)) ∧
    (∀ it, (preprocess data date_format strptime).2 =
        some (PreprocessingError.invalidFilterFormat it) →
      assocGet (preprocess data date_format strptime).1 "filters" =
        assocGet data "filters") := by
  rw [hpp]
  refine ⟨?_, ?_, ?_, ?_, ?_⟩
  · intro k _ hk2
    exact preprocessFilters_other data k hk2
  · intro hf
    exact preprocessFilters_none data hf
  · rw [preprocessFilters_err data]
    constructor
    · exact Or.inr
    · rintro (⟨d, fmt, hd', hf', hc'⟩ | h)
      · exact absurd hc' (hnodf d fmt hd' hf')
      · exact h
  · rintro ⟨d, fmt, hd', hf', hc'⟩
    exact absurd hc' (hnodf d fmt hd' hf')
  · intro it hit
    exact congrArg (fun l => assocGet l "filters")
      (preprocessFilters_err_dict data _ hit)

/-- Claim C10 (amended): over well-typed parameter dicts, `_preprocess`
either returns normally having modified at most the `date` and `filters`
keys (a dict containing neither key is returned unchanged without error),
or raises `PreprocessingError`; it raises exactly when the `date` value
fails to parse under the given date format (the dict is then unchanged),
or when some `filters` item does not split at `=` into exactly a key and
a value, i.e. contains either no or more than one `=` separator (the
`filters` key is then unchanged). -/
theorem C10_preprocess (data : Dict) (date_format : Option String)
    (strptime : String → String → Option String) (hwt : dictWT data = true) :
    (∀ k, k ≠ "date" → k ≠ "filters" →
      assocGet (preprocess data date_format strptime).1 k = assocGet data k) ∧
    (assocGet data "date" = none → assocGet data "filters" = none →
      preprocess data date_format strptime = (data, none)) ∧
    ((preprocess data date_format strptime).2 ≠ none ↔
      ((∃ d fmt, assocGet data "date" = some (Val.vstr d) ∧
          date_format = some fmt ∧ strptime d fmt = none) ∨
        ∃ items, assocGet data "filters" = some (Val.vlist items) ∧
          ∃ it ∈ items, (splitEq it).length ≠ 2)) ∧
    ((∃ d fmt, assocGet data "date" = some (Val.vstr d) ∧
        date_format = some fmt ∧ strptime d fmt = none) →
      preprocess data date_format strptime =
        (data, some PreprocessingError.invalidDateFormat)) ∧
    (∀ it, (preprocess data date_format strptime).2 =
        some (PreprocessingError.invalidFilterFormat it) →
      assocGet (preprocess data date_format strptime).1 "filters" =
        assocGet data "filters") := by
  unfold dictWT at hwt
  rw [Bool.and_eq_true] at hwt
  obtain ⟨hwt1, _⟩ := hwt
  cases hd : assocGet data "date" with
  | none =>
    have hpp : preprocess data date_format strptime = preprocessFilters data := by
      unfold preprocess
      rw [hd]
    have core := preprocess_filters_only data date_format strptime hpp
      (fun d fmt hd' _ => by simp [hd] at hd')
    rw [hd] at core
    exact ⟨core.1, fun _ hf => core.2.1 hf, core.2.2.1, core.2.2.2.1,
      core.2.2.2.2⟩
  | some v =>
    cases v with
    | vnone =>
      have hpp : preprocess data date_format strptime = preprocessFilters data := by
        unfold preprocess
        rw [hd]
      have core := preprocess_filters_only data date_format strptime hpp
        (fun d fmt hd' _ => by simp [hd] at hd')
      rw [hd] at core
      refine ⟨core.1, ?_, core.2.2.1, core.2.2.2.1, core.2.2.2.2⟩
      intro h2d
      simp at h2d
    | vstr d0 =>
      cases hfmt : date_format with
      | none =>
        have hpp : preprocess data none strptime = preprocessFilters data := by
          unfold preprocess
          rw [hd]
        have core := preprocess_filters_only data none strptime hpp
          (fun d fmt _ hf' => by simp at hf')
        rw [hd] at core
        refine ⟨core.1, ?_, core.2.2.1, core.2.2.2.1, core.2.2.2.2⟩
        intro h2d
        simp at h2d
      | some fmt0 =>
        cases hconv : strptime d0 fmt0 with
        | none =>
          have hpp : preprocess data (some fmt0) strptime =
              (data, some PreprocessingError.invalidDateFormat) := by
            unfold preprocess
            rw [hd]
            dsimp only
            rw [hconv]
          refine ⟨?_, ?_, ?_, ?_, ?_⟩
          · intro k _ _
            rw [hpp]
          · intro h2d
            simp at h2d
          · rw [hpp]
            simp only [ne_eq, reduceCtorEq, not_false_eq_true, true_iff]
            exact Or.inl ⟨d0, fmt0, rfl, rfl, hconv⟩
          · intro _
            exact hpp
          · intro it hit
            rw [hpp] at hit
            simp at hit
        | some newd =>
          have hpp : preprocess data (some fmt0) strptime =
              preprocessFilters (assocSet data "date" (Val.vstr newd)) := by
            unfold preprocess
            rw [hd]
            dsimp only
            rw [hconv]
          have hfilters1 : assocGet (assocSet data "date" (Val.vstr newd))
              "filters" = assocGet data "filters" :=
            assocGet_assocSet_other data "date" "filters" _ (by decide)
          refine ⟨?_, ?_, ?_, ?_, ?_⟩
          · intro k hk1 hk2
            rw [hpp,
              preprocessFilters_other (assocSet data "date" (Val.vstr newd)) k hk2,
              assocGet_assocSet_other data "date" k _ hk1]
          · intro h2d
            simp at h2d
          · rw [hpp,
              preprocessFilters_err (assocSet data "date" (Val.vstr newd)),
              hfilters1]
            constructor
            · exact Or.inr
            · rintro (⟨d, fmt, hd', hf', hc'⟩ | h)
              · rw [Option.some_inj, Val.vstr.injEq] at hd'
                rw [Option.some_inj] at hf'
                subst hd'
                subst hf'
                rw [hconv] at hc'
                cases hc'
              · exact h
          · rintro ⟨d, fmt, hd', hf', hc'⟩
            rw [Option.some_inj, Val.vstr.injEq] at hd'
            rw [Option.some_inj] at hf'
            subst hd'
            subst hf'
            rw [hconv] at hc'
            cases hc'
          · intro it hit
            rw [hpp] at hit ⊢
            rw [congrArg (fun l => assocGet l "filters")
              (preprocessFilters_err_dict _ _ hit)]
            exact hfilters1
    | vlist l =>
      rw [hd] at hwt1
      simp at hwt1
    | vdict w =>
      rw [hd] at hwt1
      simp at hwt1
    | vint i =>
      rw [hd] at hwt1
      simp at hwt1
    | vbool b =>
      rw [hd] at hwt1
      simp at hwt1

/-- Counterexample to C10 as stated: the filters item `"a=b=c"` does
contain the `=` separator, yet `_preprocess` raises `PreprocessingError`
(the unpacking `key, value = item.split("=")` fails on three parts). -/
theorem C10_preprocess_counterexample :
    (preprocess [("filters", Val.vlist ["a=b=c"])] none
        (fun _ _ => none)).2 =
      some (PreprocessingError.invalidFilterFormat "a=b=c") ∧
    '=' ∈ "a=b=c".toList := by
  constructor
  · rfl
  · decide

/-- Concrete witness for C10: a well-typed dict with a convertible date, a
well-formed filters list and an unrelated key; the unrelated key is
untouched. -/
theorem C10_preprocess_witness :
    assocGet (preprocess
        [("name", Val.vstr "beer"), ("date", Val.vstr "31.01."),
          ("filters", Val.vlist ["name=Beer"])]
        (some "%d.%m.")
        (fun d fmt =>
          if d = "31.01." ∧ fmt = "%d.%m." then some "01-31" else none)).1
      "name" = some (Val.vstr "beer") := by
  have h := C10_preprocess
    [("name", Val.vstr "beer"), ("date", Val.vstr "31.01."),
      ("filters", Val.vlist ["name=Beer"])]
    (some "%d.%m.")
    (fun d fmt =>
      if d = "31.01." ∧ fmt = "%d.%m." then some "01-31" else none)
    (by decide)
  rw [h.1 "name" (by decide) (by decide)]
  rfl

/-- Claim C6: `list(filters)` returns exactly the entries (materialized
occurrences for the recurrent table) whose name, date and category each
case-insensitively contain the corresponding present filter substring; the
normalized no-category marker matches exactly the entries whose category
was never explicitly set; absent keys impose no constraint; and the CLI
layer (`_preprocess`, cli.py) realizes the normalization by lowercasing
filter values and replacing a category value equal to
`CategoryEntry.DEFAULT_NAME` by `None`. -/
theorem C6_list_filtering (p : Period) (f : Filters) (eid : Nat)
    (b b' : BaseEntry) (t : RecurringEntry) (n d : String)
    (c : Option String) (k v : String)
    (conv : String → String → Option String)
    (hk : '=' ∉ k.toList) (hv : '=' ∉ v.toList) :
    ((eid, Element.base b) ∈ (p.list f).1 ↔
      (eid, Element.base b) ∈ p.standard.entries ∧ matchesBase f b = true) ∧
    ((eid, Element.recurrent t) ∈ p.recurrent.entries →
      (eid, (t.occurrences.map t.occurrenceAt).filter (matchesBase f)) ∈
        (p.list f).2) ∧
    (b' ∈ (t.occurrences.map t.occurrenceAt).filter (matchesBase f) ↔
      b' ∈ t.occurrences.map t.occurrenceAt ∧ matchesBase f b' = true) ∧
    (matchesFilters ⟨f.name, f.date, some none⟩ n d c = true ↔
      (matchesFilters ⟨f.name, f.date, none⟩ n d c = true ∧ c = none)) ∧
    matchesFilters ⟨none, none, none⟩ n d c = true ∧
    preprocess [("filters", Val.vlist [k ++ "=" ++ v])] none conv =
      ([("filters", Val.vdict
          [if k == "category" && v.toLower == CategoryEntry.DEFAULT_NAME
           then (k, none)
           else (k, some v.toLower)])], none) := by
  refine ⟨?_, ?_, ?_, ?_, ?_, ?_⟩
  · simp [Period.list, List.mem_filter]
  · intro h
    unfold Period.list
    dsimp only
    exact List.mem_map_of_mem _ h
  · exact List.mem_filter
  · simp only [matchesFilters, Bool.and_eq_true, decide_eq_true_eq,
      Bool.and_true]
  · rfl
  · have hsplit : splitEq (k ++ "=" ++ v) = [k, v] := by
      unfold splitEq
      have htl : (k ++ "=" ++ v).toList = k.toList ++ '=' :: v.toList := by
        simp [String.toList]
      rw [htl, splitEqChars_single_sep v.toList hv k.toList hk]
      rfl
    have hdate : assocGet [("filters", Val.vlist [k ++ "=" ++ v])] "date" =
        none := rfl
    unfold preprocess
    rw [hdate]
    dsimp only
    unfold preprocessFilters
    have hfil : assocGet [("filters", Val.vlist [k ++ "=" ++ v])] "filters" =
        some (Val.vlist [k ++ "=" ++ v]) := rfl
    rw [hfil]
    dsimp only
    have hparse : parseFilterItems [k ++ "=" ++ v] [] =
        Except.ok [(k, v.toLower)] := by
      unfold parseFilterItems
      rw [hsplit]
      rfl
    rw [hparse]
    rfl

/-- Concrete witness for C6, instantiating the normalization clause on a
category filter carrying the default name in mixed case. -/
theorem C6_list_filtering_witness :
    preprocess [("filters", Val.vlist ["category" ++ "=" ++ "Unspecified"])]
        none (fun _ _ => none) =
      ([("filters", Val.vdict
          [if "category" == "category" &&
              "Unspecified".toLower == CategoryEntry.DEFAULT_NAME
           then ("category", none)
           else ("category", some "Unspecified".toLower)])], none) :=
  (C6_list_filtering (Period.new "2022") ⟨none, none, none⟩ 1
    ⟨"", 0, none, ""⟩ ⟨"", 0, none, ""⟩
    ⟨"", 0, none, Frequency.daily, ⟨2020, 1, 1⟩, ⟨2020, 1, 1⟩⟩
    "" "" none "category" "Unspecified" (fun _ _ => none)
    (by decide) (by decide)).2.2.2.2.2

/-! ### Configuration, from src/financeager/config.py (claim C9) -/

/-- Modelled from the spec: the default flask host constant of
`financeager/__init__.py` (absent from `src/`). -/
def DEFAULT_HOST : String := "http://localhost:5000"

/-- Modelled from the spec: the default request timeout constant of
`financeager/__init__.py` (absent from `src/`). -/
def DEFAULT_TIMEOUT : String := "10"

namespace BaseEntry

/-- Modelled from the spec: the date format of entries
(`financeager/entries.py` is absent from `src/`). -/
def DATE_FORMAT : String := "%m-%d"

end BaseEntry

/-- The state of a ConfigParser: section name to option name to raw string
value, in insertion order. -/
abbrev ParserData := List (String × List (String × String))

/-- Modelled from the spec: a plugin (`financeager/plugin.py` is absent
from `src/`): a name, whether it is a service plugin, and the default
sections and option types its configuration contributes.  The base plugin
configuration validation hook is a no-op. -/
structure Plugin where
  name : String
  isService : Bool
  defaults : ParserData
  optionTypes : List (String × List (String × String))
deriving Repr

/-- The configuration: the parser state and the declared option types. -/
structure Configuration where
  parser : ParserData
  option_types : List (String × List (String × String))
deriving Repr

/-- `_init_defaults` (config.py lines 44-60): the built-in default
sections, then each plugin's default sections. -/
def init_defaults (plugins : List Plugin) : ParserData :=
  plugins.foldl
    (fun pd p => p.defaults.foldl (fun pd q => assocSet pd q.1 q.2) pd)
    [("SERVICE", [("name", "none")]),
     ("FRONTEND", [("default_category", CategoryEntry.DEFAULT_NAME),
       ("date_format", BaseEntry.DATE_FORMAT)]),
     ("SERVICE:FLASK", [("host", DEFAULT_HOST), ("timeout", DEFAULT_TIMEOUT),
       ("username", ""), ("password", "")])]

/-- `_init_option_types` (config.py lines 62-70): the built-in timeout
type, then each plugin's contributed option types. -/
def init_option_types (plugins : List Plugin) :
    List (String × List (String × String)) :=
  plugins.foldl
    (fun ot p => p.optionTypes.foldl (fun ot q => assocSet ot q.1 q.2) ot)
    [("SERVICE:FLASK", [("timeout", "int")])]

/-- `parser.get(section, option)`: the raw stored value. -/
def rawGet (pd : ParserData) (sec opt : String) : Option String :=
  match assocGet pd sec with
  | none => none
  | some opts => assocGet opts opt

/-- `_load_custom_config` (config.py lines 72-95): for every section and
option of the default parser, take the custom value when the custom config
provides it; sections or options only in the custom config are ignored. -/
def loadCustomConfig (pd : ParserData) (cc : ParserData) : ParserData :=
  pd.map (fun sec =>
    (sec.1, sec.2.map (fun item =>
      match rawGet cc sec.1 item.1 with
      | some v => (item.1, v)
      | none => item)))

/-- The numeric value of a digit list, most significant first. -/
def digitsToNat (l : List Char) : Nat :=
  l.foldl (fun acc c => acc * 10 + (c.toNat - '0'.toNat)) 0

/-- A model of Python `int()` on strings: an optional sign followed by one
or more digits. -/
def parseInt (s : String) : Option Int :=
  match s.toList with
  | [] => none
  | '-' :: rest =>
    if rest ≠ [] ∧ rest.all Char.isDigit then
      some (-(Int.ofNat (digitsToNat rest)))
    else none
  | '+' :: rest =>
    if rest ≠ [] ∧ rest.all Char.isDigit then
      some (Int.ofNat (digitsToNat rest))
    else none
  | l =>
    if l.all Char.isDigit then some (Int.ofNat (digitsToNat l)) else none

/-- A model of Python `float()` convertibility: an optional sign, digits
with at most one decimal point, at least one digit. -/
def isFloatStr (s : String) : Bool :=
  let l :=
    match s.toList with
    | '-' :: rest => rest
    | '+' :: rest => rest
    | l => l
  (l.count '.' ≤ 1 : Bool) && l.all (fun c => c.isDigit || c = '.') &&
    l.any Char.isDigit

/-- ConfigParser `getboolean` conversion states. -/
def parseBool (s : String) : Option Bool :=
  if s.toLower ∈ ["1", "yes", "true", "on"] then some true
  else if s.toLower ∈ ["0", "no", "false", "off"] then some false
  else none

/-- A typed configuration value as returned by `get_option`; a float value
keeps its raw text (its numeric semantics is out of scope). -/
inductive CfgValue where
  | str (s : String)
  | int (i : Int)
  | float (raw : String)
  | bool (b : Bool)
deriving DecidableEq, Repr

/-- Failures of `get_option`: a missing section or option
(`NoSectionError`/`NoOptionError`), or a failed typed conversion
(`ValueError`). -/
inductive GetErr where
  | noOption
  | valueError
deriving DecidableEq, Repr

/-- `get_option` (config.py lines 106-121): return the requested option,
converted when a type is declared for it. -/
def Configuration.get_option (c : Configuration) (sec opt : String) :
    Except GetErr CfgValue :=
  match rawGet c.parser sec opt with
  | none => Except.error GetErr.noOption
  | some raw =>
    match (match assocGet c.option_types sec with
           | none => none
           | some m => assocGet m opt) with
    | some "int" =>
      match parseInt raw with
      | some i => Except.ok (CfgValue.int i)
      | none => Except.error GetErr.valueError
    | some "float" =>
      if isFloatStr raw then Except.ok (CfgValue.float raw)
      else Except.error GetErr.valueError
    | some "boolean" =>
      match parseBool raw with
      | some b => Except.ok (CfgValue.bool b)
      | none => Except.error GetErr.valueError
    | _ => Except.ok (CfgValue.str raw)

/-- The constructor outcome: `invalidConfig` models `InvalidConfigError`;
`uncaught` models any other exception escaping `_validate`
(`NoSectionError`, `NoOptionError`, `TypeError`). -/
inductive ConfigError where
  | invalidConfig (msg : String)
  | uncaught
deriving DecidableEq, Repr

/-- The recognized service names: the built-ins plus the registered
service plugins (config.py lines 129-132). -/
def valid_services (plugins : List Plugin) : List String :=
  ["none", "flask"] ++ (plugins.filter Plugin.isService).map Plugin.name

/-- The typed-option checks of `_validate` over one section: a failed
conversion raises `InvalidConfigError`, a missing option propagates
uncaught. -/
def validateTypesSection (c : Configuration) (sec : String) :
    List (String × String) → Except ConfigError Unit
  | [] => Except.ok ()
  | (opt, _) :: rest =>
    match c.get_option sec opt with
    | Except.error GetErr.valueError =>
      Except.error (ConfigError.invalidConfig
        ("Wrong type for option " ++ opt ++ " in section " ++ sec ++ "."))
    | Except.error GetErr.noOption => Except.error ConfigError.uncaught
    | Except.ok _ => validateTypesSection c sec rest

/-- The typed-option checks of `_validate` over all declared sections
(config.py lines 140-147). -/
def validateTypes (c : Configuration) :
    List (String × List (String × String)) → Except ConfigError Unit
  | [] => Except.ok ()
  | (sec, opts) :: rest =>
    match validateTypesSection c sec opts with
    | Except.ok _ => validateTypes c rest
    | Except.error e => Except.error e

/-- `_validate` (config.py lines 123-150): the service name must be
recognized, the default category non-empty, and every typed option
convertible.  The plugin-config validation hook of the base plugin class
is a no-op. -/
def Configuration.validate (c : Configuration) (plugins : List Plugin) :
    Except ConfigError Unit :=
  match c.get_option "SERVICE" "name" with
  | Except.error _ => Except.error ConfigError.uncaught
  | Except.ok (CfgValue.str s) =>
    if s ∈ valid_services plugins then
      match c.get_option "FRONTEND" "default_category" with
      | Except.error _ => Except.error ConfigError.uncaught
      | Except.ok (CfgValue.str t) =>
        if t.length < 1 then
          Except.error (ConfigError.invalidConfig
            "Default category name too short!")
        else validateTypes c c.option_types
      | Except.ok _ => Except.error ConfigError.uncaught
    else Except.error (ConfigError.invalidConfig "Unknown service name!")
  | Except.ok _ =>
    Except.error (ConfigError.invalidConfig "Unknown service name!")

/-- The `Configuration` constructor (config.py lines 19-42): initialize
the defaults and option types, overlay the custom config when a filepath
was given (`some none` models a filepath that cannot be read), then
validate. -/
def Configuration.make (custom : Option (Option ParserData))
    (plugins : List Plugin) : Except ConfigError Configuration :=
  match custom with
  | some none =>
    Except.error (ConfigError.invalidConfig "Config filepath does not exist!")
  | none =>
    match Configuration.validate
        ⟨init_defaults plugins, init_option_types plugins⟩ plugins with
    | Except.ok _ =>
      Except.ok ⟨init_defaults plugins, init_option_types plugins⟩
    | Except.error e => Except.error e
  | some (some cc) =>
    match Configuration.validate
        ⟨loadCustomConfig (init_defaults plugins) cc,
          init_option_types plugins⟩ plugins with
    | Except.ok _ =>
      Except.ok ⟨loadCustomConfig (init_defaults plugins) cc,
        init_option_types plugins⟩
    | Except.error e => Except.error e

theorem validateTypesSection_ok (c : Configuration) (sec : String) :
    ∀ opts : List (String × String),
      validateTypesSection c sec opts = Except.ok () →
      ∀ q ∈ opts, ∃ v, c.get_option sec q.1 = Except.ok v
  | [], _, q, hq => absurd hq (List.not_mem_nil q)
  | (opt, ty) :: rest, h, q, hq => by
    unfold validateTypesSection at h
    cases hg : c.get_option sec opt with
    | error e =>
      rw [hg] at h
      cases e <;> simp at h
    | ok v =>
      rw [hg] at h
      rcases List.mem_cons.mp hq with rfl | hq'
      · exact ⟨v, hg⟩
      · exact validateTypesSection_ok c sec rest h q hq'

theorem validateTypes_ok (c : Configuration) :
    ∀ l : List (String × List (String × String)),
      validateTypes c l = Except.ok () →
      ∀ sec opts, (sec, opts) ∈ l → ∀ q ∈ opts,
        ∃ v, c.get_option sec q.1 = Except.ok v
  | [], _, sec, opts, hmem, _, _ => absurd hmem (List.not_mem_nil (sec, opts))
  | (sec0, opts0) :: rest, h, sec, opts, hmem, q, hq => by
    unfold validateTypes at h
    cases hs : validateTypesSection c sec0 opts0 with
    | error e =>
      rw [hs] at h
      simp at h
    | ok u =>
      rw [hs] at h
      rcases List.mem_cons.mp hmem with heq | hmem'
      · rw [Prod.mk.injEq] at heq
        obtain ⟨rfl, rfl⟩ := heq
        exact validateTypesSection_ok c sec opts hs q hq
      · exact validateTypes_ok c rest h sec opts hmem' q hq

theorem validateTypesSection_fail (c : Configuration) (sec : String) :
    ∀ opts : List (String × String),
      (∀ q ∈ opts, c.get_option sec q.1 ≠ Except.error GetErr.noOption) →
      (∃ q ∈ opts, c.get_option sec q.1 = Except.error GetErr.valueError) →
      ∃ msg, validateTypesSection c sec opts =
        Except.error (ConfigError.invalidConfig msg)
  | [], _, hbad => absurd hbad (by simp)
  | (opt, ty) :: rest, hno, hbad => by
    unfold validateTypesSection
    cases hg : c.get_option sec opt with
    | error e =>
      cases e with
      | noOption => exact absurd hg (hno (opt, ty) (List.mem_cons_self _ _))
      | valueError => exact ⟨_, rfl⟩
    | ok v =>
      obtain ⟨q, hq, hqval⟩ := hbad
      rcases List.mem_cons.mp hq with rfl | hq'
      · rw [hg] at hqval
        cases hqval
      · exact validateTypesSection_fail c sec rest
          (fun q' hq' => hno q' (List.mem_cons_of_mem _ hq'))
          ⟨q, hq', hqval⟩

theorem validateTypes_fail (c : Configuration) :
    ∀ l : List (String × List (String × String)),
      (∀ sec opts, (sec, opts) ∈ l → ∀ q ∈ opts,
        c.get_option sec q.1 ≠ Except.error GetErr.noOption) →
      (∃ sec opts, (sec, opts) ∈ l ∧ ∃ q ∈ opts,
        c.get_option sec q.1 = Except.error GetErr.valueError) →
      ∃ msg, validateTypes c l = Except.error (ConfigError.invalidConfig msg)
  | [], _, hbad => absurd hbad (by simp)
  | (sec0, opts0) :: rest, hno, hbad => by
    unfold validateTypes
    cases hs : validateTypesSection c sec0 opts0 with
    | error e =>
      obtain ⟨msg, hmsg⟩ : ∃ msg, Except.error (ε := ConfigError) (α := Unit) e =
          Except.error (ConfigError.invalidConfig msg) := by
        cases e with
        | invalidConfig m => exact ⟨m, rfl⟩
        | uncaught =>
          obtain ⟨q, hq, hqno⟩ : ∃ q ∈ opts0,
              c.get_option sec0 q.1 = Except.error GetErr.noOption := by
            clear hbad hno
            induction opts0 with
            | nil => simp [validateTypesSection] at hs
            | cons q0 rest0 ih =>
              rw [show q0 = (q0.1, q0.2) from rfl] at hs
              unfold validateTypesSection at hs
              cases hg : c.get_option sec0 q0.1 with
              | error e' =>
                rw [hg] at hs
                cases e' with
                | noOption => exact ⟨q0, List.mem_cons_self _ _, hg⟩
                | valueError => simp at hs
              | ok v =>
                rw [hg] at hs
                obtain ⟨q, hq, hqno⟩ := ih hs
                exact ⟨q, List.mem_cons_of_mem _ hq, hqno⟩
          exact absurd hqno (hno sec0 opts0 (List.mem_cons_self _ _) q hq)
      rw [hmsg]
      exact ⟨msg, rfl⟩
    | ok u =>
      obtain ⟨sec, opts, hmem, hbad'⟩ := hbad
      rcases List.mem_cons.mp hmem with heq | hmem'
      · rw [Prod.mk.injEq] at heq
        obtain ⟨rfl, rfl⟩ := heq
        obtain ⟨q, hq, hqval⟩ := hbad'
        obtain ⟨v, hv⟩ := validateTypesSection_ok c sec opts hs q hq
        rw [hv] at hqval
        cases hqval
      · exact validateTypes_fail c rest
          (fun sec' opts' hmem'' => hno sec' opts' (List.mem_cons_of_mem _ hmem''))
          ⟨sec, opts, hmem', hbad'⟩

theorem validate_ok_spec (c : Configuration) (plugins : List Plugin)
    (h : c.validate plugins = Except.ok ()) :
    (∃ s, c.get_option "SERVICE" "name" = Except.ok (CfgValue.str s) ∧
      s ∈ valid_services plugins) ∧
    (∃ s, c.get_option "FRONTEND" "default_category" =
      Except.ok (CfgValue.str s) ∧ 1 ≤ s.length) ∧
    validateTypes c c.option_types = Except.ok () := by
  unfold Configuration.validate at h
  cases hn : c.get_option "SERVICE" "name" with
  | error e =>
    rw [hn] at h
    simp at h
  | ok v =>
    rw [hn] at h
    cases v with
    | str s =>
      dsimp only at h
      by_cases hs : s ∈ valid_services plugins
      · rw [if_pos hs] at h
        cases hc : c.get_option "FRONTEND" "default_category" with
        | error e =>
          rw [hc] at h
          simp at h
        | ok w =>
          rw [hc] at h
          cases w with
          | str t =>
            dsimp only at h
            by_cases ht : t.length < 1
            · rw [if_pos ht] at h
              simp at h
            · rw [if_neg ht] at h
              exact ⟨⟨s, rfl, hs⟩, ⟨t, rfl, by omega⟩, h⟩
          | int i => simp at h
          | float r => simp at h
          | bool b => simp at h
      · rw [if_neg hs] at h
        simp at h
    | int i => simp at h
    | float r => simp at h
    | bool b => simp at h

theorem make_ok_validate (custom : Option (Option ParserData))
    (plugins : List Plugin) (cfg : Configuration)
    (h : Configuration.make custom plugins = Except.ok cfg) :
    cfg.validate plugins = Except.ok () := by
  unfold Configuration.make at h
  rcases custom with _ | ⟨_ | cc⟩
  · dsimp only at h
    cases hv : Configuration.validate
        ⟨init_defaults plugins, init_option_types plugins⟩ plugins with
    | error e =>
      rw [hv] at h
      simp at h
    | ok u =>
      rw [hv] at h
      dsimp only at h
      simp only [Except.ok.injEq] at h
      subst h
      cases u
      exact hv
  · simp at h
  · dsimp only at h
    cases hv : Configuration.validate
        ⟨loadCustomConfig (init_defaults plugins) cc,
          init_option_types plugins⟩ plugins with
    | error e =>
      rw [hv] at h
      simp at h
    | ok u =>
      rw [hv] at h
      dsimp only at h
      simp only [Except.ok.injEq] at h
      subst h
      cases u
      exact hv

instance decidableEqExcept {ε α : Type} [DecidableEq ε] [DecidableEq α] :
    DecidableEq (Except ε α) := fun a b =>
  match a, b with
  | Except.ok x, Except.ok y =>
    if h : x = y then Decidable.isTrue (by rw [h])
    else Decidable.isFalse (fun hc => h (Except.ok.inj hc))
  | Except.error x, Except.error y =>
    if h : x = y then Decidable.isTrue (by rw [h])
    else Decidable.isFalse (fun hc => h (Except.error.inj hc))
  | Except.ok _, Except.error _ =>
    Decidable.isFalse (fun hc => Except.noConfusion hc)
  | Except.error _, Except.ok _ =>
    Decidable.isFalse (fun hc => Except.noConfusion hc)

/-- Claim C9: every constructor call that returns normally yields a
configuration whose SERVICE/name is one of the valid service names, whose
FRONTEND/default_category is non-empty, and whose declared-type options
all convert, so `get_option` returns them without `ValueError`; when any
of the three checks fails — unknown service name, empty default category,
or a declared-type option failing conversion — the constructor path
(`_validate`) raises `InvalidConfigError` instead of returning.  (For the
conversion check, the typed options must be present: a missing option
escapes `_validate` as an uncaught lookup error before conversion is
attempted.) -/
theorem C9_config_validation (custom : Option (Option ParserData))
    (plugins : List Plugin) (cfg c' : Configuration)
    (h : Configuration.make custom plugins = Except.ok cfg) :
    (∃ s, cfg.get_option "SERVICE" "name" = Except.ok (CfgValue.str s) ∧
      s ∈ valid_services plugins) ∧
    (∃ s, cfg.get_option "FRONTEND" "default_category" =
      Except.ok (CfgValue.str s) ∧ 1 ≤ s.length) ∧
    (∀ sec opts opt ty, assocGet cfg.option_types sec = some opts →
      assocGet opts opt = some ty →
      ∃ v, cfg.get_option sec opt = Except.ok v) ∧
    (∀ s, c'.get_option "SERVICE" "name" = Except.ok (CfgValue.str s) →
      s ∉ valid_services plugins →
      c'.validate plugins =
        Except.error (ConfigError.invalidConfig "Unknown service name!")) ∧
    (∀ s t, c'.get_option "SERVICE" "name" = Except.ok (CfgValue.str s) →
      s ∈ valid_services plugins →
      c'.get_option "FRONTEND" "default_category" =
        Except.ok (CfgValue.str t) →
      t.length = 0 →
      c'.validate plugins =
        Except.error (ConfigError.invalidConfig
          "Default category name too short!")) ∧
    (∀ s t, c'.get_option "SERVICE" "name" = Except.ok (CfgValue.str s) →
      s ∈ valid_services plugins →
      c'.get_option "FRONTEND" "default_category" =
        Except.ok (CfgValue.str t) →
      1 ≤ t.length →
      (∀ pr ∈ c'.option_types, ∀ q ∈ pr.2,
        c'.get_option pr.1 q.1 ≠ Except.error GetErr.noOption) →
      (∃ pr ∈ c'.option_types, ∃ q ∈ pr.2,
        c'.get_option pr.1 q.1 = Except.error GetErr.valueError) →
      ∃ msg, c'.validate plugins =
        Except.error (ConfigError.invalidConfig msg)) := by
  have hval := make_ok_validate custom plugins cfg h
  obtain ⟨h1, h2, h3⟩ := validate_ok_spec cfg plugins hval
  refine ⟨h1, h2, ?_, ?_, ?_, ?_⟩
  · intro sec opts opt ty hsec hopt
    have hsec' := List.mem_of_find?_eq_some
      (Option.map_eq_some'.mp hsec).choose_spec.1
    obtain ⟨⟨secpair, hfind, hsnd⟩⟩ : ∃ _ : (∃ a, cfg.option_types.find?
        (fun q => q.1 == sec) = some a ∧ a.2 = opts), True := ⟨Option.map_eq_some'.mp hsec, trivial⟩
    have hkey := List.find?_some hfind
    simp only [beq_iff_eq] at hkey
    have hmem := List.mem_of_find?_eq_some hfind
    obtain ⟨optpair, hfind2, hsnd2⟩ := Option.map_eq_some'.mp hopt
    have hkey2 := List.find?_some hfind2
    simp only [beq_iff_eq] at hkey2
    have hmem2 := List.mem_of_find?_eq_some hfind2
    have hmem' : (sec, opts) ∈ cfg.option_types := by
      have : secpair = (sec, opts) := by
        rcases secpair with ⟨a, b⟩
        simp only at hkey hsnd
        rw [hkey, hsnd]
      rw [← this]
      exact hmem
    have := validateTypes_ok cfg cfg.option_types h3 sec opts hmem' optpair hmem2
    rw [hkey2] at this
    exact this
  · intro s hn hs
    unfold Configuration.validate
    rw [hn]
    dsimp only
    rw [if_neg hs]
  · intro s t hn hs hc ht
    unfold Configuration.validate
    rw [hn]
    dsimp only
    rw [if_pos hs, hc]
    dsimp only
    rw [if_pos (by omega)]
  · intro s t hn hs hc ht hno hbad
    unfold Configuration.validate
    rw [hn]
    dsimp only
    rw [if_pos hs, hc]
    dsimp only
    rw [if_neg (by omega)]
    refine validateTypes_fail c' c'.option_types ?_ ?_
    · intro sec opts hm q hq
      exact hno (sec, opts) hm q hq
    · obtain ⟨pr, hm, q, hq, hval⟩ := hbad
      exact ⟨pr.1, pr.2, hm, q, hq, hval⟩

/-- Concrete witness for C9: the default configuration (no custom file, no
plugins) validates and its service name is among the valid services; and a
configuration customized with `timeout = foo` (the unconvertible typed
option of the repository's own test) makes `_validate` raise
`InvalidConfigError`. -/
theorem C9_config_validation_witness :
    (∃ s, (Configuration.get_option
        ⟨init_defaults [], init_option_types []⟩ "SERVICE" "name") =
        Except.ok (CfgValue.str s) ∧ s ∈ valid_services []) ∧
    (∃ msg, Configuration.validate
        ⟨[("SERVICE", [("name", "none")]),
          ("FRONTEND", [("default_category", CategoryEntry.DEFAULT_NAME),
            ("date_format", BaseEntry.DATE_FORMAT)]),
          ("SERVICE:FLASK", [("host", DEFAULT_HOST), ("timeout", "foo"),
            ("username", ""), ("password", "")])],
         [("SERVICE:FLASK", [("timeout", "int")])]⟩ [] =
        Except.error (ConfigError.invalidConfig msg)) := by
  have h := C9_config_validation none []
    ⟨init_defaults [], init_option_types []⟩
    ⟨[("SERVICE", [("name", "none")]),
      ("FRONTEND", [("default_category", CategoryEntry.DEFAULT_NAME),
        ("date_format", BaseEntry.DATE_FORMAT)]),
      ("SERVICE:FLASK", [("host", DEFAULT_HOST), ("timeout", "foo"),
        ("username", ""), ("password", "")])],
     [("SERVICE:FLASK", [("timeout", "int")])]⟩ (by rfl)
  refine ⟨h.1, h.2.2.2.2.2 "none" CategoryEntry.DEFAULT_NAME (by rfl)
    (by decide) (by rfl) (by decide) (by decide) (by decide)⟩

/-! ### cli.run, from src/financeager/cli.py (claim C8) -/

/-- The CLI exit code for success (cli.py line 21). -/
def SUCCESS : Nat := 0

/-- The CLI exit code for failure (cli.py line 22). -/
def FAILURE : Nat := 1

/-- The observable outcome of one `cli.run` invocation: the exit code, the
offline queue left behind, and the instrumented control-flow facts the
claims speak about (whether `safely_run` was reached and reported success,
and whether `offline.recover` was attempted). -/
structure CliRunResult where
  exitCode : Nat
  safelyRunCalled : Bool
  safelyRunSuccess : Bool
  recoverAttempted : Bool
  queueAfter : List OfflineRecord
  storedOffline : Bool
deriving Repr

/-- Embedding of `cli.run` (src/financeager/cli.py lines 39-109).  The
external collaborators are passed in: the custom-config source of the
`Configuration`, the date conversion used by `_preprocess`, the outcome
`(success, store_offline)` of `client.safely_run` for the current command,
the per-record replay success used by `offline.recover`, the current
offline queue, and the success of `offline.add`.  The `list`
formatting-option extraction and the output sinks are presentation-only
and not modelled. -/
def cli_run (custom : Option (Option ParserData)) (command : String)
    (params : Dict) (strptime : String → String → Option String)
    (sr : Bool × Bool) (clientRun : OfflineRecord → Bool)
    (queue : List OfflineRecord) (offlineAddOk : Bool) : CliRunResult :=
  match Configuration.make custom [] with
  | Except.error _ => ⟨FAILURE, false, false, false, queue, false⟩
  | Except.ok cfg =>
    match preprocess params
        (match cfg.get_option "FRONTEND" "date_format" with
         | Except.ok (CfgValue.str s) => some s
         | _ => none) strptime with
    | (_, some _) => ⟨FAILURE, false, false, false, queue, false⟩
    | (params', none) =>
      if sr.1 then
        match recover clientRun queue with
        | (Except.ok _, q') =>
          ⟨SUCCESS, true, true, true,
            if sr.2 && offlineAddOk then q' ++ [⟨command, params'⟩] else q',
            sr.2 && offlineAddOk⟩
        | (Except.error _, q') =>
          ⟨FAILURE, true, true, true,
            if sr.2 && offlineAddOk then q' ++ [⟨command, params'⟩] else q',
            sr.2 && offlineAddOk⟩
      else
        ⟨FAILURE, true, false, false,
          if sr.2 && offlineAddOk then queue ++ [⟨command, params'⟩]
          else queue,
          sr.2 && offlineAddOk⟩

/-- Claim C8: offline recovery is attempted if and only if
`client.safely_run` reported success for the current command (in
particular never after a configuration or preprocessing failure, where
`safely_run` is not reached); when recovery raises `OfflineRecoveryError`
the error is surfaced — `cli.run` returns the failure exit code even
though the triggering command itself succeeded — and when recovery does
not raise, a successful command exits with the success code. -/
theorem C8_recover_surfacing (custom : Option (Option ParserData))
    (command : String) (params : Dict)
    (strptime : String → String → Option String) (sr : Bool × Bool)
    (clientRun : OfflineRecord → Bool) (queue : List OfflineRecord)
    (offlineAddOk : Bool) :
    ((cli_run custom command params strptime sr clientRun queue
        offlineAddOk).recoverAttempted =
      (cli_run custom command params strptime sr clientRun queue
        offlineAddOk).safelyRunSuccess) ∧
    ((cli_run custom command params strptime sr clientRun queue
        offlineAddOk).safelyRunSuccess = true →
      (recover clientRun queue).1 = Except.error () →
      (cli_run custom command params strptime sr clientRun queue
        offlineAddOk).exitCode = FAILURE) ∧
    ((cli_run custom command params strptime sr clientRun queue
        offlineAddOk).safelyRunSuccess = true →
      (∀ e, (recover clientRun queue).1 ≠ Except.error e) →
      (cli_run custom command params strptime sr clientRun queue
        offlineAddOk).exitCode = SUCCESS) := by
  unfold cli_run
  cases Configuration.make custom [] with
  | error e =>
    exact ⟨rfl, fun h => absurd h (by simp), fun h _ => absurd h (by simp)⟩
  | ok cfg =>
    dsimp only
    cases hpre : preprocess params
        (match cfg.get_option "FRONTEND" "date_format" with
         | Except.ok (CfgValue.str s) => some s
         | _ => none) strptime with
    | mk params' me =>
      cases me with
      | some e =>
        exact ⟨rfl, fun h => absurd h (by simp), fun h _ => absurd h (by simp)⟩
      | none =>
        cases hsr : sr.1 with
        | false =>
          dsimp only
          exact ⟨rfl, fun h => absurd h (by simp), fun h _ => absurd h (by simp)⟩
        | true =>
          dsimp only
          cases hrec : recover clientRun queue with
          | mk res q' =>
            cases res with
            | ok b =>
              refine ⟨rfl, ?_, ?_⟩
              · intro _ habs
                simp at habs
              · intro _ _
                rfl
            | error u =>
              refine ⟨rfl, ?_, ?_⟩
              · intro _ _
                rfl
              · intro _ hne
                cases u
                exact absurd rfl (hne ())

/-- Concrete witness for C8: a successful `list` command with a queue
whose replay fails — the exit code is `FAILURE` although the command
succeeded; and with an empty queue the exit code is `SUCCESS`. -/
theorem C8_recover_surfacing_witness :
    (cli_run none "list" [] (fun _ _ => none) (true, false)
        (fun _ => false) [⟨"add", []⟩] true).exitCode = FAILURE ∧
    (cli_run none "list" [] (fun _ _ => none) (true, false)
        (fun _ => false) [] true).exitCode = SUCCESS := by
  constructor
  · exact (C8_recover_surfacing none "list" [] (fun _ _ => none) (true, false)
      (fun _ => false) [⟨"add", []⟩] true).2.1 (by rfl) (by rfl)
  · exact (C8_recover_surfacing none "list" [] (fun _ _ => none) (true, false)
      (fun _ => false) [] true).2.2 (by rfl) (by intro e h; cases h)

end Financeager
